import Mathlib

/-!
# curv: string printing, argument binding of built-in functions, closures,
executors, operation trees, the geometry compiler interface of functions,
evaluation in tail position and symbol expressions

A shallow embedding of `curv/string.cc`, `curv/function.cc` and of the parts of
`libcurv/frame.h` and `libcurv/meaning.h` they rely on.

Conventions of the embedding:

* a C++ object reached through a pointer whose identity is all that matters
  (a phrase, a module, an operation, a parent frame) is an address, a `Nat`;
  a pointer that may be null is an `Option`;
* a function that mutates the frame it receives by reference returns the frame
  it leaves behind, also when it throws;
* a virtual function whose body lives in a subclass is a function taken as an
  argument (or carried as a field of the object);
* a `Run` additionally carries a trace of the frame accesses and virtual calls
  made by the embedded function itself, in the order in which it makes them.
-/

/-- Text of an error message, as built by `stringify`. -/
abbrev Message := String

namespace curv

/-! ## Strings (`curv/string.cc`) -/

/-- One `char` of a string. -/
abbrev Byte := UInt8

/-- The byte `'$'`. -/
def dollar : Byte := 36

/-- The byte `'"'`. -/
def dquote : Byte := 34

/-- A `curv::String`: `size_` and the tail array `data_`. An object built by
`String::make` holds `size_ + 1` bytes in `data_`, the last one a NUL. -/
structure String where
  size_ : Nat
  data_ : List Byte

/-- `String::make(str, len)`: `memcpy(s->data_, str, len); s->data_[len] = 0;
s->size_ = len;`. The buffer `str` holds at least `len` bytes and the
allocation succeeds. -/
def String.make (str : List Byte) (len : Nat) : String :=
  { size_ := len, data_ := str.take len ++ [0] }

/-- The loop of `String::print`,
`for (size_t i = 0; i < size_; ++i) { char c = data_[i]; if (c == '$' || c == '"') out << c; out << c; }`,
entered at index `i` with `n = size_ - i` iterations left. -/
def String.print_loop (s : String) : Nat → Nat → List Byte → List Byte
  | 0, _, out => out
  | n + 1, i, out =>
    let c := s.data_.getD i 0
    let out := if c = dollar ∨ c = dquote then out ++ [c] else out
    String.print_loop s n (i + 1) (out ++ [c])

/-- `String::print(out)`: the bytes on the stream after the call, given the
bytes `out` on it before the call. -/
def String.print (s : String) (out : List Byte) : List Byte :=
  let out := out ++ [dquote]
  let out := s.print_loop s.size_ 0 out
  out ++ [dquote]

/-- The bytes of a string: `data_[0 .. size_ - 1]`. -/
def String.bytes (s : String) : List Byte := s.data_.take s.size_

/-- What the surface syntax writes for one byte of a string literal: `$` and
`"` twice, any other byte once. -/
def escaped (c : Byte) : List Byte :=
  if c = dollar ∨ c = dquote then [c, c] else [c]

/-- Removes the first and the last byte of a text (its two quotes). -/
def strip_quotes (text : List Byte) : List Byte := (text.drop 1).dropLast

/-- Scans a text from left to right and replaces each pair `$$` by `$` and each
pair `""` by `"`; every other byte is kept. -/
def unescape : List Byte → List Byte
  | [] => []
  | [c] => [c]
  | c :: d :: rest =>
    if (c = dollar ∧ d = dollar) ∨ (c = dquote ∧ d = dquote) then c :: unescape rest
    else c :: unescape (d :: rest)

/-! ## Values, phrases and frames -/

/-- Modelled from the spec: a symbol (`libcurv/symbol.h` is not among the
sources), an interned name. -/
abbrev Symbol_Ref := Message

/-- Modelled from the spec: `Value` (`libcurv/value.h` and `libcurv/list.h` are
not among the sources), the tagged datum with the variants of the data model.
A number is kept as a code of the double (`double_arithmetic` gives the
reading of the codes it covers), a function as the address of its object. -/
inductive Value where
  | missing
  | null
  | bool (b : Bool)
  | num (bits : Nat)
  | symbol (name : Symbol_Ref)
  | string (s : String)
  | list (elems : List Value)
  | record (fields : List (Symbol_Ref × Value))
  | function (fn : Nat)

/-- Modelled from the spec: `Value::dycast<const List>()`, the checked
downcast, which yields the list when the value is a list and null otherwise. -/
def Value.dycast_List : Value → Option (List Value)
  | .list elems => some elems
  | _ => none

/-- Address of a syntax phrase. -/
abbrev Phrase := Nat

/-- Address of a `Module`. -/
abbrev Module_Ptr := Nat

/-- Address of an `Operation`. -/
abbrev Operation_Ptr := Nat

/-- Modelled from the spec: a `Call_Phrase` (`libcurv/phrase.h` is not among the
sources), the call site with its function phrase and its argument phrase. -/
structure Call_Phrase where
  function_ : Phrase
  arg_ : Phrase

/-- `Frame_Base` of `libcurv/frame.h` with its slot array. `function.cc` names
the fields `call_phrase_` and `nonlocals_` without the trailing part
(`f.call_phrase`, `f.nonlocal`). The field `size_` is the length of
`array_`. -/
structure Frame where
  system_ : Nat
  parent_frame_ : Option Nat
  call_phrase_ : Option Call_Phrase
  nonlocals_ : Option Module_Ptr
  next_op_ : Option Operation_Ptr
  result_ : Value
  func_ : Option Nat
  array_ : List Value

/-- The field `size_` of a frame. -/
def Frame.size_ (f : Frame) : Nat := f.array_.length

/-- Modelled from the spec: a `GL_Value`, a value of the geometry compiler (its
header is not among the sources): the type and the number of the variable that
holds it in the generated code. -/
structure GL_Value where
  kind : Nat
  index : Nat

/-- Modelled from the spec: a `GL_Frame`, the frame of the geometry compiler
(its header is not among the sources), with the members `curv/function.cc`
uses: the compiler `gl` (an address), the parent frame (an address), the call
phrase, the nonlocals pointer `nonlocal`, and the slot array, in which a slot
that has not been assigned yet is `none`. -/
structure GL_Frame where
  gl : Nat
  parent_frame : Option Nat
  call_phrase : Option Call_Phrase
  nonlocal : Option Module_Ptr
  array_ : List (Option GL_Value)

/-- Modelled from the spec: the place an exception cites
(`libcurv/context.h` is not among the sources): `At_Phrase(phrase, &f)`,
`At_GL_Phrase(phrase, &f)` and `At_GL_Frame(&f)`. -/
inductive Context where
  | At_Phrase (phrase : Phrase) (f : Frame)
  | At_GL_Phrase (phrase : Phrase) (f : GL_Frame)
  | At_GL_Frame (f : GL_Frame)

/-- Modelled from the spec: `Exception(context, message)`
(`libcurv/exception.h` is not among the sources). -/
structure Exception where
  loc : Context
  what : Message

/-- Modelled from the spec: the closed set of error kinds of the evaluator.
The stock executors fail with `NotAnAction`, `FieldInList`, `ValueInRecord`
and `DuplicateField` (the executors are declared in `libcurv/meaning.h`; the
bodies of their member functions are not among the sources). -/
inductive Error_Kind where
  | NotAnAction
  | FieldInList
  | ValueInRecord
  | DuplicateField
  | TypeMismatch
  | NotBoolean
  | NotCallable
  | NotSpreadable
  | NotAList
  | NotARecord
  | ArityMismatch
  | PatternMismatch
  | MissingElse
  | DivisionByZero
  | DomainError
  | RecursiveDefinitionUsedAsValue
  | ShapeCompilerUnsupported
  | UnboundIdentifier

/-- Modelled from the spec: an error of the evaluator, its kind and the
context it cites. -/
structure Error where
  kind : Error_Kind
  context : Context

/-- How a function of the program fails: it throws an `Exception`, an
`assert` fails, or it dereferences a null pointer; a function modelled from
the spec fails with an `Error` of the spec's closed set. -/
inductive Fault where
  | exception (e : Exception)
  | assertion_failed
  | null_dereference
  | error (e : Error)

/-- Modelled from the spec: an `Identifier` phrase (`libcurv/phrase.h` is not
among the sources): the address it has as a phrase, and its member
`symbol_`. -/
structure Identifier where
  phrase : Phrase
  symbol_ : Symbol_Ref

/-- A `String_Expr` of `libcurv/meaning.h`: the member `syntax_` it inherits
from `Meaning`, and its tail array of segments, each a shared pointer to a
`Segment` (an address). -/
structure String_Expr where
  syntax_ : Phrase
  array_ : List Nat

/-- What the embedded function itself does to its surroundings, in order:
`index i` is a call `f[i]` of `Frame_Base::operator[]`, `call f` a call of the
virtual `call(f)` entered with the frame contents `f`, `eval op f` a call of
`op->eval(f)`, `eval_symbol s f` a call `s->eval_symbol(f)` on a string
expression. -/
inductive Event where
  | index (i : Nat)
  | call (f : Frame)
  | eval (op : Operation_Ptr) (f : Frame)
  | eval_symbol (string : String_Expr) (f : Frame)

/-- Outcome of a function that works on a frame passed by reference: the value
it returns or the fault it ends with, the frame it leaves behind, and its
trace. -/
structure Run (α : Type) where
  result : Except Fault α
  frame : Frame
  trace : List Event

/-- The statement `f[i] = v`: `Frame_Base::operator[]` checks
`assert(i < size_)` and returns a reference to `array_[i]`, through which `v`
is stored. -/
def Frame.subscript_assign (f : Frame) (i : Nat) (v : Value) : Except Fault Frame :=
  if i < f.size_ then .ok { f with array_ := f.array_.set i v }
  else .error Fault.assertion_failed

/-! ## Built-in functions and closures (`curv/function.cc`) -/

/-- A `Polyadic_Function`: its arity `nargs_`, its frame size `nslots_`, and
its pure virtual `Value call(Frame&)`, which returns a value or fails and
leaves a frame behind. -/
structure Polyadic_Function where
  nargs_ : Nat
  nslots_ : Nat
  call_frame : Frame → Except Fault Value × Frame

/-- The tail `return call(f);` of `Polyadic_Function::call(Value, Frame&)`,
reached with the trace `tr`. -/
def Polyadic_Function.return_call (fn : Polyadic_Function) (f : Frame)
    (tr : List Event) : Run Value :=
  let r := fn.call_frame f
  { result := r.1, frame := r.2, trace := tr ++ [Event.call f] }

/-- The statement
`throw Exception(At_Phrase(*f.call_phrase->arg_, &f), stringify("function call argument is not a list of length ", nargs_));`. -/
def Polyadic_Function.throw_arity (fn : Polyadic_Function) (f : Frame) : Run Value :=
  match f.call_phrase_ with
  | none => { result := .error Fault.null_dereference, frame := f, trace := [] }
  | some cp =>
    { result := .error (Fault.exception
        { loc := Context.At_Phrase cp.arg_ f,
          what := "function call argument is not a list of length " ++ toString fn.nargs_ }),
      frame := f, trace := [] }

/-- The loop `for (size_t i = 0; i < list->size(); ++i) f[i] = (*list)[i];`
entered at index `i`, where the first argument holds the elements
`i, i + 1, ...` of the list that are still to be stored. -/
def Polyadic_Function.call_loop : List Value → Nat → Frame → List Event → Run Unit
  | [], _, f, tr => { result := .ok (), frame := f, trace := tr }
  | v :: rest, i, f, tr =>
    match f.subscript_assign i v with
    | .error e => { result := .error e, frame := f, trace := tr ++ [Event.index i] }
    | .ok f1 => Polyadic_Function.call_loop rest (i + 1) f1 (tr ++ [Event.index i])

/-- `Polyadic_Function::call(Value arg, Frame& f)`. -/
def Polyadic_Function.call (fn : Polyadic_Function) (arg : Value) (f : Frame) : Run Value :=
  if fn.nargs_ = 1 then
    match f.subscript_assign 0 arg with
    | .error e => { result := .error e, frame := f, trace := [Event.index 0] }
    | .ok f1 => fn.return_call f1 [Event.index 0]
  else
    match arg.dycast_List with
    | some list =>
      if list.length = fn.nargs_ then
        let r := Polyadic_Function.call_loop list 0 f []
        match r.result with
        | .error e => { result := .error e, frame := r.frame, trace := r.trace }
        | .ok _ => fn.return_call r.frame r.trace
      else fn.throw_arity f
    | none => fn.throw_arity f

/-- A `Closure`, as far as `Closure::call` uses it: the captured nonlocals
module `nonlocal_` and the body `expr_`, both shared pointers that are never
null. -/
structure Closure where
  nonlocal_ : Module_Ptr
  expr_ : Operation_Ptr

/-- `Closure::call(Frame& f)`: `f.nonlocal = &*nonlocal_; return expr_->eval(f);`.
The virtual `Operation::eval` is the argument `eval`. -/
def Closure.call (eval : Operation_Ptr → Frame → Except Fault Value × Frame)
    (c : Closure) (f : Frame) : Run Value :=
  let f1 : Frame := { f with nonlocals_ := some c.nonlocal_ }
  let r := eval c.expr_ f1
  { result := r.1, frame := r.2, trace := [Event.eval c.expr_ f1] }

/-! ## Executors (`libcurv/meaning.h`) -/

/-- Modelled from the spec: `List_Builder` (`libcurv/list.h` is not among the
sources), the values pushed so far, in order. -/
abbrev List_Builder := List Value

/-- Modelled from the spec: `DRecord` (`libcurv/record.h` is not among the
sources), the fields of a record under construction. -/
structure DRecord where
  fields_ : List (Symbol_Ref × Value)

/-- The value a record under construction holds for a name, if any. -/
def DRecord.find (r : DRecord) (name : Symbol_Ref) : Option Value :=
  r.fields_.lookup name

/-- `Operation::List_Executor`, with the builder its reference `list_`
designates. -/
structure List_Executor where
  list_ : List_Builder

/-- `Operation::Record_Executor`, with the record its reference `record_`
designates. -/
structure Record_Executor where
  record_ : DRecord

/-- Modelled from the spec: `Action_Executor::push_value`, which fails with
`NotAnAction` (the body is not among the sources). -/
def Action_Executor.push_value (_v : Value) (cx : Context) : Except Error Unit :=
  .error { kind := Error_Kind.NotAnAction, context := cx }

/-- Modelled from the spec: `Action_Executor::push_field`, which fails with
`NotAnAction` (the body is not among the sources). -/
def Action_Executor.push_field (_name : Symbol_Ref) (_v : Value) (cx : Context) :
    Except Error Unit :=
  .error { kind := Error_Kind.NotAnAction, context := cx }

/-- Modelled from the spec: `List_Executor::push_value`, which appends the
value (the body is not among the sources). Returns the executor afterwards. -/
def List_Executor.push_value (ex : List_Executor) (v : Value) (_cx : Context) :
    Except Error Unit × List_Executor :=
  (.ok (), { list_ := ex.list_ ++ [v] })

/-- Modelled from the spec: `List_Executor::push_field`, which fails with
`FieldInList` (the body is not among the sources). -/
def List_Executor.push_field (ex : List_Executor) (_name : Symbol_Ref) (_v : Value)
    (cx : Context) : Except Error Unit × List_Executor :=
  (.error { kind := Error_Kind.FieldInList, context := cx }, ex)

/-- Modelled from the spec: `Record_Executor::push_value`, which fails with
`ValueInRecord` (the body is not among the sources). -/
def Record_Executor.push_value (ex : Record_Executor) (_v : Value) (cx : Context) :
    Except Error Unit × Record_Executor :=
  (.error { kind := Error_Kind.ValueInRecord, context := cx }, ex)

/-- Modelled from the spec: `Record_Executor::push_field`, which inserts the
field, a duplicate key failing with `DuplicateField` (the body is not among
the sources). -/
def Record_Executor.push_field (ex : Record_Executor) (name : Symbol_Ref) (v : Value)
    (cx : Context) : Except Error Unit × Record_Executor :=
  match ex.record_.find name with
  | some _ => (.error { kind := Error_Kind.DuplicateField, context := cx }, ex)
  | none => (.ok (), { record_ := { fields_ := ex.record_.fields_ ++ [(name, v)] } })

/-! ## The tail-evaluation driver (`libcurv/frame.h`) -/

/-- One call `op->tail_eval(f)` made by the driver, with the frame contents it
is entered with. -/
structure Tail_Call where
  op : Operation_Ptr
  f : Frame

/-- Modelled from the spec: `tail_eval_frame` (declared in `libcurv/frame.h`,
its body is not among the sources): while `next_op_` is set, clear it and
invoke that operation's `tail_eval`; when none remains, return `result_`.
The virtual `Operation::tail_eval(std::unique_ptr<Frame>&)` is the argument
`tail_eval`, which yields the frame the pointer holds afterwards or fails.
The first number bounds the iterations of the loop: the result is `none` when
the loop is still running after that many. The list is the sequence of
`tail_eval` calls made so far. -/
def tail_eval_frame (tail_eval : Operation_Ptr → Frame → Except Fault Frame) :
    Nat → Frame → List Tail_Call → Option (Except Fault Value) × List Tail_Call
  | fuel, f, tr =>
    match f.next_op_, fuel with
    | none, _ => (some (.ok f.result_), tr)
    | some _, 0 => (none, tr)
    | some op, fuel + 1 =>
      let f1 : Frame := { f with next_op_ := none }
      match tail_eval op f1 with
      | .error e => (some (.error e), tr ++ [{ op := op, f := f1 }])
      | .ok f2 => tail_eval_frame tail_eval fuel f2 (tr ++ [{ op := op, f := f1 }])

/-! ## Allocation in `String::make` -/

/-- `String::make(str, len)` with its allocation: `raw` tells whether `malloc`
returned a block (`false` stands for the null pointer). On a null pointer
`std::bad_alloc` is thrown and no string is returned (`none`); otherwise the
string is built in the block. -/
def String.make_alloc (raw : Bool) (str : List Byte) (len : Nat) : Option String :=
  if raw = false then none
  else some (String.make str len)

/-! ## Frames that differ in argument slots only -/

/-- The frames `f` and `g` have the same non-slot fields (system, parent,
call phrase, nonlocals, trampoline registers, function) and the same size. -/
def Frame.same_registers (f g : Frame) : Prop :=
  g.system_ = f.system_ ∧ g.parent_frame_ = f.parent_frame_ ∧
  g.call_phrase_ = f.call_phrase_ ∧ g.nonlocals_ = f.nonlocals_ ∧
  g.next_op_ = f.next_op_ ∧ g.result_ = f.result_ ∧ g.func_ = f.func_ ∧
  g.size_ = f.size_

/-! ## Operation trees (`libcurv/meaning.h`) -/

/-- The classes derived from `Prefix_Expr_Base`. -/
inductive Prefix_Class where
  | Not_Expr
  | Positive_Expr
  | Negative_Expr

/-- The classes derived from `Infix_Expr_Base`. -/
inductive Infix_Class where
  | Predicate_Assertion_Expr
  | Or_Expr
  | And_Expr
  | Equal_Expr
  | Not_Equal_Expr
  | Less_Expr
  | Greater_Expr
  | Less_Or_Equal_Expr
  | Greater_Or_Equal_Expr
  | Add_Expr
  | Subtract_Expr
  | Multiply_Expr
  | Divide_Expr
  | Power_Expr

/-- An `Operation` tree as the constructors of `libcurv/meaning.h` build it.
A shared pointer to a child is the child, the tree being immutable once built.
`Constant`, `Data_Ref`, `Nonlocal_Data_Ref`, `Prefix_Expr_Base`,
`Infix_Expr_Base` (each with the derived class of the node), `Call_Expr` and
`If_Else_Op` carry the members their constructors store. A `List_Expr` carries
its elements and the flag `pure_` it has after `init()`, whose body is not
among the sources; `other` is an operation of any further class, with the flag
`pure_` it carries (`false` unless set, by `bool pure_ = false;`). -/
inductive Operation where
  | Constant (syntax_ : Phrase) (value_ : Value)
  | Data_Ref (syntax_ : Phrase) (slot_ : Nat)
  | Nonlocal_Data_Ref (syntax_ : Phrase) (slot_ : Nat)
  | Prefix_Expr_Base (cls : Prefix_Class) (syntax_ : Phrase) (arg_ : Operation)
  | Infix_Expr_Base (cls : Infix_Class) (syntax_ : Phrase) (arg1_ arg2_ : Operation)
  | Call_Expr (syntax_ : Phrase) (func_ arg_ : Operation)
  | If_Else_Op (syntax_ : Phrase) (arg1_ arg2_ arg3_ : Operation)
  | List_Expr (syntax_ : Phrase) (elems : List Operation) (pure_ : Bool)
  | other (syntax_ : Phrase) (pure_ : Bool)

/-- The member `syntax_` of an operation (`source_` in `curv/function.cc`). -/
def Operation.syntax_ : Operation → Phrase
  | .Constant s _ => s
  | .Data_Ref s _ => s
  | .Nonlocal_Data_Ref s _ => s
  | .Prefix_Expr_Base _ s _ => s
  | .Infix_Expr_Base _ s _ _ => s
  | .Call_Expr s _ _ => s
  | .If_Else_Op s _ _ _ => s
  | .List_Expr s _ _ => s
  | .other s _ => s

/-- The member `pure_` of an operation, as its constructor leaves it:
`pure_ = true` (`Constant`), `pure_ = arg_->pure_` (`Prefix_Expr_Base`),
`pure_ = (arg1_->pure_ && arg2_->pure_)` (`Infix_Expr_Base`),
`pure_ = (func_->pure_ && arg_->pure_)` (`Call_Expr`),
`pure_ = (arg1_->pure_ && arg2_->pure_ && arg3_->pure_)` (`If_Else_Op`); the
constructors of `Data_Ref` and `Nonlocal_Data_Ref` leave the initial
`false`. -/
def Operation.pure_ : Operation → Bool
  | .Constant _ _ => true
  | .Data_Ref _ _ => false
  | .Nonlocal_Data_Ref _ _ => false
  | .Prefix_Expr_Base _ _ arg_ => arg_.pure_
  | .Infix_Expr_Base _ _ arg1_ arg2_ => arg1_.pure_ && arg2_.pure_
  | .Call_Expr _ func_ arg_ => func_.pure_ && arg_.pure_
  | .If_Else_Op _ arg1_ arg2_ arg3_ => arg1_.pure_ && arg2_.pure_ && arg3_.pure_
  | .List_Expr _ _ p => p
  | .other _ p => p

/-- The leaves of a tree built from prefix, infix, call and if-else nodes:
the constants and the operations of other classes it ends in. -/
def Operation.leaves : Operation → List Operation
  | .Prefix_Expr_Base _ _ arg_ => arg_.leaves
  | .Infix_Expr_Base _ _ arg1_ arg2_ => arg1_.leaves ++ arg2_.leaves
  | .Call_Expr _ func_ arg_ => func_.leaves ++ arg_.leaves
  | .If_Else_Op _ arg1_ arg2_ arg3_ => arg1_.leaves ++ arg2_.leaves ++ arg3_.leaves
  | op => [op]

/-- The nodes of a tree built from prefix, infix, call and if-else nodes: the
root and every node below it. -/
def Operation.nodes : Operation → List Operation
  | .Prefix_Expr_Base c s arg_ => .Prefix_Expr_Base c s arg_ :: arg_.nodes
  | .Infix_Expr_Base c s arg1_ arg2_ =>
    .Infix_Expr_Base c s arg1_ arg2_ :: (arg1_.nodes ++ arg2_.nodes)
  | .Call_Expr s func_ arg_ => .Call_Expr s func_ arg_ :: (func_.nodes ++ arg_.nodes)
  | .If_Else_Op s arg1_ arg2_ arg3_ =>
    .If_Else_Op s arg1_ arg2_ arg3_ :: (arg1_.nodes ++ arg2_.nodes ++ arg3_.nodes)
  | op => [op]

/-! ## The geometry compiler interface of functions (`curv/function.cc`) -/

/-- Modelled from the spec: the state of the `GL_Compiler` object the frames
refer to (its header is not among the sources): the text emitted so far. The
functions below hand it on and never read it. -/
structure GL_Compiler where
  emitted : List Message

/-- Modelled from the spec: the base class `Function` (`curv/function.h` is not
among the sources), with the frame size of its calls. -/
structure Function where
  nslots_ : Nat

/-- `Function::gl_call_expr(arg, call_phrase, f)`:
`throw Exception(At_GL_Phrase(*call_phrase->function_, &f), "this function does not support the Geometry Compiler");`. -/
def Function.gl_call_expr (_fn : Function) (_arg : Operation)
    (call_phrase : Option Call_Phrase) (f : GL_Frame) : Except Fault GL_Value :=
  match call_phrase with
  | none => .error Fault.null_dereference
  | some cp =>
    .error (Fault.exception
      { loc := Context.At_GL_Phrase cp.function_ f,
        what := "this function does not support the Geometry Compiler" })

/-- `Polyadic_Function::gl_call(f)`:
`throw Exception(At_GL_Frame(&f), "this function does not support the Geometry Compiler");`. -/
def Polyadic_Function.gl_call (_fn : Polyadic_Function) (f : GL_Frame) :
    Except Fault GL_Value :=
  .error (Fault.exception
    { loc := Context.At_GL_Frame f,
      what := "this function does not support the Geometry Compiler" })

/-- Modelled from the spec: `GL_Frame::make(nslots, gl, parent, call_phrase)`
(its body is not among the sources): a new frame of `nslots` slots, none of
them assigned, with the given compiler, parent and call phrase. -/
def GL_Frame.make (nslots : Nat) (gl : Nat) (parent : Option Nat)
    (call_phrase : Option Call_Phrase) : GL_Frame :=
  { gl := gl, parent_frame := parent, call_phrase := call_phrase, nonlocal := none,
    array_ := List.replicate nslots none }

/-- Modelled from the spec: the statement `f2[i] = v` on a `GL_Frame`, whose
`operator[]` is taken to check `assert(i < size_)` as the one of
`Frame_Base` does. -/
def GL_Frame.subscript_assign (f2 : GL_Frame) (i : Nat) (v : GL_Value) :
    Except Fault GL_Frame :=
  if i < f2.array_.length then .ok { f2 with array_ := f2.array_.set i (some v) }
  else .error Fault.assertion_failed

/-- What `Polyadic_Function::gl_call_expr` itself does, in order: `make f2` is
the call of `GL_Frame::make` that returned `f2`; `gl_eval op f` a call
`op->gl_eval(f)` entered with the contents `f` of the frame it is given;
`index i` a call `(*f2)[i]`; `gl_call f2` the call `gl_call(*f2)`. -/
inductive GL_Event where
  | make (f2 : GL_Frame)
  | gl_eval (op : Operation) (f : GL_Frame)
  | index (i : Nat)
  | gl_call (f2 : GL_Frame)

/-- Outcome of a function of the geometry compiler interface: what it returns
or the fault it ends with, the caller's frame and the compiler as it leaves
them, and its trace. -/
structure GL_Run (α : Type) where
  result : Except Fault α
  frame : GL_Frame
  gl : GL_Compiler
  trace : List GL_Event

/-- The type of the virtual `Operation::gl_eval(GL_Frame&)`: given the
operation, the frame and the compiler, the value or fault, and the frame and
the compiler afterwards. -/
abbrev GL_Eval := Operation → GL_Frame → GL_Compiler →
  Except Fault GL_Value × GL_Frame × GL_Compiler

/-- The type of the virtual `Polyadic_Function::gl_call(GL_Frame&)`: given the
callee frame and the compiler, the value or fault and the compiler
afterwards. -/
abbrev GL_Call := GL_Frame → GL_Compiler → Except Fault GL_Value × GL_Compiler

/-- The operator `dynamic_cast<List_Expr*>(&arg)`: the elements of the list
expression, or null when the operation is of another class. -/
def Operation.dynamic_cast_List_Expr : Operation → Option (List Operation)
  | .List_Expr _ elems _ => some elems
  | _ => none

/-- The expression `nargs_ == 1 ? 1 : list ? list->size() : 1` that
initialises `nargs` in `Polyadic_Function::gl_call_expr`. -/
def Polyadic_Function.gl_nargs (fn : Polyadic_Function) (list : Option (List Operation)) :
    Nat :=
  if fn.nargs_ = 1 then 1
  else match list with
    | some elems => elems.length
    | none => 1

/-- The statement
`throw Exception(At_GL_Phrase(*arg.source_, &f), "wrong number of arguments");`. -/
def Polyadic_Function.gl_throw_wrong_number (arg : Operation) (f : GL_Frame)
    (g : GL_Compiler) : GL_Run GL_Value :=
  { result := .error (Fault.exception
      { loc := Context.At_GL_Phrase arg.syntax_ f, what := "wrong number of arguments" }),
    frame := f, gl := g, trace := [] }

/-- The statement `(*f2)[i] = op->gl_eval(f);`: the right-hand side is
evaluated first, in the caller's frame `f`, then `(*f2)[i]` is taken and the
value stored. -/
def Polyadic_Function.gl_bind (gl_eval : GL_Eval) (op : Operation) (i : Nat)
    (f : GL_Frame) (g : GL_Compiler) (f2 : GL_Frame) (tr : List GL_Event) :
    GL_Run GL_Frame :=
  match gl_eval op f g with
  | (.error e, f1, g1) =>
    { result := .error e, frame := f1, gl := g1, trace := tr ++ [GL_Event.gl_eval op f] }
  | (.ok v, f1, g1) =>
    match f2.subscript_assign i v with
    | .error e =>
      { result := .error e, frame := f1, gl := g1,
        trace := tr ++ [GL_Event.gl_eval op f, GL_Event.index i] }
    | .ok f3 =>
      { result := .ok f3, frame := f1, gl := g1,
        trace := tr ++ [GL_Event.gl_eval op f, GL_Event.index i] }

/-- The loop
`for (size_t i = 0; i < list->size(); ++i) (*f2)[i] = (*list)[i]->gl_eval(f);`
entered at index `i`, where the first list holds the elements `i, i + 1, ...`
that are still to be evaluated. -/
def Polyadic_Function.gl_call_loop (gl_eval : GL_Eval) :
    List Operation → Nat → GL_Frame → GL_Compiler → GL_Frame → List GL_Event →
    GL_Run GL_Frame
  | [], _, f, g, f2, tr => { result := .ok f2, frame := f, gl := g, trace := tr }
  | op :: rest, i, f, g, f2, tr =>
    let r := Polyadic_Function.gl_bind gl_eval op i f g f2 tr
    match r.result with
    | .error e => { result := .error e, frame := r.frame, gl := r.gl, trace := r.trace }
    | .ok f3 => Polyadic_Function.gl_call_loop gl_eval rest (i + 1) r.frame r.gl f3 r.trace

/-- The tail `return gl_call(*f2);` of `Polyadic_Function::gl_call_expr`,
reached after the binding `r` of the arguments. -/
def Polyadic_Function.gl_return_call (gl_call : GL_Call) (r : GL_Run GL_Frame) :
    GL_Run GL_Value :=
  match r.result with
  | .error e => { result := .error e, frame := r.frame, gl := r.gl, trace := r.trace }
  | .ok f2 =>
    { result := (gl_call f2 r.gl).1, frame := r.frame, gl := (gl_call f2 r.gl).2,
      trace := r.trace ++ [GL_Event.gl_call f2] }

/-- `Polyadic_Function::gl_call_expr(arg, call_phrase, f)`. The reference `f`
is the address `f_addr` of the caller's frame together with its contents; the
virtual functions `gl_eval` and `gl_call` are arguments. -/
def Polyadic_Function.gl_call_expr (fn : Polyadic_Function) (gl_eval : GL_Eval)
    (gl_call : GL_Call) (arg : Operation) (call_phrase : Option Call_Phrase)
    (f_addr : Nat) (f : GL_Frame) (g : GL_Compiler) : GL_Run GL_Value :=
  let list := arg.dynamic_cast_List_Expr
  let nargs := fn.gl_nargs list
  if nargs ≠ fn.nargs_ then
    Polyadic_Function.gl_throw_wrong_number arg f g
  else
    let f2 := GL_Frame.make fn.nslots_ f.gl (some f_addr) call_phrase
    if nargs = 1 then
      Polyadic_Function.gl_return_call gl_call
        (Polyadic_Function.gl_bind gl_eval arg 0 f g f2 [GL_Event.make f2])
    else
      match list with
      | none =>
        { result := .error Fault.null_dereference, frame := f, gl := g,
          trace := [GL_Event.make f2] }
      | some elems =>
        Polyadic_Function.gl_return_call gl_call
          (Polyadic_Function.gl_call_loop gl_eval elems 0 f g f2 [GL_Event.make f2])

/-- Evaluation of a sequence of operations from left to right with `gl_eval`,
each in the caller's frame as the ones before it have left it: the values in
the order of the operations (or the first fault), the frame and the compiler
afterwards, and the calls of `gl_eval` made, each with the frame contents it
was entered with. -/
def gl_eval_in_order (gl_eval : GL_Eval) :
    List Operation → GL_Frame → GL_Compiler →
    Except Fault (List GL_Value) × GL_Frame × GL_Compiler × List (Operation × GL_Frame)
  | [], f, g => (.ok [], f, g, [])
  | op :: rest, f, g =>
    match gl_eval op f g with
    | (.error e, f1, g1) => (.error e, f1, g1, [(op, f)])
    | (.ok v, f1, g1) =>
      match gl_eval_in_order gl_eval rest f1 g1 with
      | (.error e, f2, g2, calls) => (.error e, f2, g2, (op, f) :: calls)
      | (.ok vs, f2, g2, calls) => (.ok (v :: vs), f2, g2, (op, f) :: calls)

/-- The events of binding the results of the given calls of `gl_eval` to the
slots `i, i + 1, ...` in this order: for each call, the call and then the
access to its slot. -/
def gl_bind_events : List (Operation × GL_Frame) → Nat → List GL_Event
  | [], _ => []
  | (op, f) :: rest, i =>
    GL_Event.gl_eval op f :: GL_Event.index i :: gl_bind_events rest (i + 1)

/-! ## Evaluation in tail position (`libcurv/meaning.h`, `libcurv/frame.h`) -/

/-- Modelled from the spec: a `Module` (`libcurv/module.h` is not among the
sources), a dictionary from symbols to slot indices plus a slot array. -/
structure Module where
  dictionary : List (Symbol_Ref × Nat)
  slots : List Value

/-- Modelled from the spec: the parameter pattern of a closure
(`libcurv/pattern.h` is not among the sources). Only the identifier pattern is
modelled, which stores the argument in its slot of the callee frame. -/
inductive Pattern where
  | Id_Pattern (slot_ : Nat)

/-- Modelled from the spec: a closure as a function value, with the four parts
the data model lists: the parameter pattern, the body and the nonlocals module
(the two members of `Closure`), and `nslots_`, the frame size the body
needs. -/
structure Closure_Object extends Closure where
  pattern_ : Pattern
  nslots_ : Nat

/-- Modelled from the spec: what a function value designates, a closure or a
polyadic built-in. -/
inductive Callable where
  | closure (c : Closure_Object)
  | builtin (fn : Polyadic_Function)

/-- The objects the evaluator reaches through addresses: the operation at the
address of an operation, the function object of a function value, the module
at the address of a module. -/
structure Heap where
  operation : Operation_Ptr → Option Operation
  function : Nat → Option Callable
  module : Module_Ptr → Option Module

/-- Modelled from the spec: the primitive operations on values that
`Equal_Expr` and `Subtract_Expr` apply (`libcurv/value.h` and the arithmetic
are not among the sources; numbers are IEEE-754 doubles, which the embedding
does not define): the number value that denotes a natural number, the equality
of values, and the subtraction, which fails on operands that are not
numbers. -/
structure Arithmetic where
  number : Nat → Value
  equal : Value → Value → Bool
  subtract : Value → Value → Except Fault Value

/-- The arithmetic is exact on the natural numbers up to `n`: among them only
0 equals 0, and subtracting 1 from a positive one gives its predecessor. -/
def Arithmetic.exact_up_to (A : Arithmetic) (n : Nat) : Prop :=
  ∀ k : Nat, k ≤ n →
    A.equal (A.number k) (A.number 0) = decide (k = 0) ∧
    (0 < k → A.subtract (A.number k) (A.number 1) = .ok (A.number (k - 1)))

/-- What evaluation depends on: the heap, the arithmetic, and the virtual
`eval` of the operation classes that are not modelled here, which returns a
value or fails and leaves a frame behind. -/
structure Evaluator where
  heap : Heap
  arith : Arithmetic
  eval_other : Operation → Frame → Except Fault Value × Frame

/-- Modelled from the spec: `Frame::make(nslots, system, parent, call_phrase,
func)` (its body is not among the sources): a frame of `nslots` slots holding
the missing value, with no nonlocals and both trampoline registers unset. -/
def Frame.make (nslots : Nat) (system : Nat) (parent : Option Nat)
    (call_phrase : Option Call_Phrase) (func : Option Nat) : Frame :=
  { system_ := system, parent_frame_ := parent, call_phrase_ := call_phrase,
    nonlocals_ := none, next_op_ := none, result_ := Value.missing, func_ := func,
    array_ := List.replicate nslots Value.missing }

/-- Modelled from the spec: `eval` (the bodies are not among the sources) of a
`Constant` (its value), a `Data_Ref` (the local slot), a `Nonlocal_Data_Ref`
(the slot of the nonlocals module), an `Equal_Expr` and a `Subtract_Expr`
(both operands from left to right, then the primitive operation). The `eval`
of every other class is `eval_other`. -/
def Operation.eval (E : Evaluator) : Operation → Frame → Except Fault Value × Frame
  | .Constant _ v, f => (.ok v, f)
  | .Data_Ref _ slot, f =>
    match f.array_[slot]? with
    | some v => (.ok v, f)
    | none => (.error Fault.assertion_failed, f)
  | .Nonlocal_Data_Ref _ slot, f =>
    match f.nonlocals_ with
    | none => (.error Fault.null_dereference, f)
    | some m =>
      match E.heap.module m with
      | none => (.error Fault.null_dereference, f)
      | some md =>
        match md.slots[slot]? with
        | some v => (.ok v, f)
        | none => (.error Fault.assertion_failed, f)
  | .Infix_Expr_Base .Equal_Expr _ a b, f =>
    match a.eval E f with
    | (.error e, f1) => (.error e, f1)
    | (.ok x, f1) =>
      match b.eval E f1 with
      | (.error e, f2) => (.error e, f2)
      | (.ok y, f2) => (.ok (Value.bool (E.arith.equal x y)), f2)
  | .Infix_Expr_Base .Subtract_Expr _ a b, f =>
    match a.eval E f with
    | (.error e, f1) => (.error e, f1)
    | (.ok x, f1) =>
      match b.eval E f1 with
      | (.error e, f2) => (.error e, f2)
      | (.ok y, f2) => (E.arith.subtract x y, f2)
  | op, f => E.eval_other op f

/-- Modelled from the spec: binding the argument by matching the pattern
against the value in the callee frame. -/
def Pattern.exec : Pattern → Value → Frame → Except Fault Frame
  | .Id_Pattern slot, v, f => f.subscript_assign slot v

/-- Modelled from the spec: the set-up of a call in tail position, once the
function value `fv` and the argument `arg` are known: for a closure, a fresh
callee frame with `nslots` slots and the call phrase of this call takes the
place of the current frame `f` (it keeps the parent of `f`), its nonlocals are
those of the closure, the argument is bound by the pattern, and `next_op` is
the body of the closure; for a built-in, the argument is bound by
`Polyadic_Function::call`, which invokes the built-in, and the callee frame
holds the result; any other value fails with `NotCallable`. -/
def Evaluator.tail_call (E : Evaluator) (s : Phrase) (call_phrase : Call_Phrase)
    (fv : Value) (arg : Value) (f : Frame) : Except Fault Frame :=
  match fv with
  | .function addr =>
    match E.heap.function addr with
    | none => .error Fault.null_dereference
    | some (.closure c) =>
      let callee : Frame :=
        { Frame.make c.nslots_ f.system_ f.parent_frame_ (some call_phrase) (some addr) with
          nonlocals_ := some c.nonlocal_ }
      match c.pattern_.exec arg callee with
      | .error e => .error e
      | .ok callee1 => .ok { callee1 with next_op_ := some c.expr_ }
    | some (.builtin fn) =>
      let callee : Frame :=
        Frame.make fn.nslots_ f.system_ f.parent_frame_ (some call_phrase) (some addr)
      match (fn.call arg callee).result with
      | .error e => .error e
      | .ok v => .ok { (fn.call arg callee).frame with result_ := v, next_op_ := none }
  | _ => .error (Fault.error { kind := Error_Kind.NotCallable, context := Context.At_Phrase s f })

/-- Modelled from the spec: `tail_eval` (the bodies are not among the
sources). An `If_Else_Op` evaluates its condition, which must be a boolean
(else `NotBoolean`), and passes on to the `tail_eval` of the chosen branch; a
`Call_Expr` evaluates the function, then the argument, and sets up the call in
tail position instead of evaluating the body; every other operation is
evaluated and its value stored in `result_`, with `next_op_` unset. -/
def Operation.tail_eval (E : Evaluator) : Operation → Frame → Except Fault Frame
  | .If_Else_Op _ c a b, f =>
    match c.eval E f with
    | (.error e, _) => .error e
    | (.ok (Value.bool true), f1) => a.tail_eval E f1
    | (.ok (Value.bool false), f1) => b.tail_eval E f1
    | (.ok _, f1) =>
      .error (Fault.error
        { kind := Error_Kind.NotBoolean, context := Context.At_Phrase c.syntax_ f1 })
  | .Call_Expr s func arg, f =>
    match func.eval E f with
    | (.error e, _) => .error e
    | (.ok fv, f1) =>
      match arg.eval E f1 with
      | (.error e, _) => .error e
      | (.ok v, f2) =>
        E.tail_call s { function_ := func.syntax_, arg_ := arg.syntax_ } fv v f2
  | op, f =>
    match op.eval E f with
    | (.error e, _) => .error e
    | (.ok v, f1) => .ok { f1 with result_ := v, next_op_ := none }

/-- The virtual call `op->tail_eval(f)` through the address of an operation,
as `tail_eval_frame` makes it. -/
def Evaluator.tail_eval (E : Evaluator) (p : Operation_Ptr) (f : Frame) : Except Fault Frame :=
  match E.heap.operation p with
  | none => .error Fault.null_dereference
  | some op => op.tail_eval E f

/-! ## The function `loop = n -> if (n == 0) 0 else loop(n-1)` -/

/-- The body `if (n == 0) 0 else loop(n-1)`: `n` is slot 0 of the frame and
`loop` slot 0 of the nonlocals. -/
def loop_body (A : Arithmetic) : Operation :=
  Operation.If_Else_Op 100
    (Operation.Infix_Expr_Base Infix_Class.Equal_Expr 101
      (Operation.Data_Ref 102 0) (Operation.Constant 103 (A.number 0)))
    (Operation.Constant 104 (A.number 0))
    (Operation.Call_Expr 105
      (Operation.Nonlocal_Data_Ref 106 0)
      (Operation.Infix_Expr_Base Infix_Class.Subtract_Expr 107
        (Operation.Data_Ref 108 0) (Operation.Constant 109 (A.number 1))))

/-- The expression `loop(n)` of the program, evaluated in the program frame,
where the definition of `loop` is the local slot 0. -/
def loop_call (A : Arithmetic) (n : Nat) : Operation :=
  Operation.Call_Expr 110 (Operation.Data_Ref 111 0)
    (Operation.Constant 112 (A.number n))

/-- The heap of the program: the expression `loop(n)` at address 0, the body
of `loop` at address 1, the closure `loop` (one parameter `n`, one slot) at
address 5, and at address 9 the nonlocals module of the closure, whose slot 0
holds the function `loop` itself (the recursive reference resolves through
it). -/
def loop_heap (A : Arithmetic) (n : Nat) : Heap :=
  { operation := fun p =>
      if p = 0 then some (loop_call A n) else if p = 1 then some (loop_body A) else none,
    function := fun a =>
      if a = 5 then
        some (Callable.closure
          { nonlocal_ := 9, expr_ := 1, pattern_ := Pattern.Id_Pattern 0, nslots_ := 1 })
      else none,
    module := fun m =>
      if m = 9 then some { dictionary := [("loop", 0)], slots := [Value.function 5] }
      else none }

/-- The evaluator of the program `loop(n)`. -/
def loop_evaluator (A : Arithmetic) (n : Nat)
    (eval_other : Operation → Frame → Except Fault Value × Frame) : Evaluator :=
  { heap := loop_heap A n, arith := A, eval_other := eval_other }

/-- The program frame in which `loop(n)` is to be evaluated, after the
definition of `loop` has stored the closure in its local slot 0: no parent, no
call phrase, no nonlocals (a program frame has none), and `next_op_` set to
the expression `loop(n)`. -/
def loop_start : Frame :=
  { system_ := 0, parent_frame_ := none, call_phrase_ := none, nonlocals_ := none,
    next_op_ := some 0, result_ := Value.missing, func_ := none,
    array_ := [Value.function 5] }

/-- The callee frame of a call of `loop` in tail position, as it is entered:
the system and parent of the frame it replaces, the call phrase `cp`, the
nonlocals of the closure, `next_op_` set to the body, and the argument `v` in
its only slot. -/
def loop_frame (system : Nat) (parent : Option Nat) (cp : Call_Phrase) (v : Value) : Frame :=
  { system_ := system, parent_frame_ := parent, call_phrase_ := some cp,
    nonlocals_ := some 9, next_op_ := some 1, result_ := Value.missing, func_ := some 5,
    array_ := [v] }

/-- The calls of `tail_eval` the driver makes from the entry of `loop` with
argument `k` on, the frame of that call having the call phrase `cp`: one call
of the body for each of the arguments `k, k - 1, ..., 0`, each on the frame of
that call with `next_op_` cleared. -/
def loop_trace (A : Arithmetic) (system : Nat) (parent : Option Nat) :
    Call_Phrase → Nat → List Tail_Call
  | cp, 0 =>
    [{ op := 1, f := { loop_frame system parent cp (A.number 0) with next_op_ := none } }]
  | cp, k + 1 =>
    { op := 1, f := { loop_frame system parent cp (A.number (k + 1)) with next_op_ := none } }
      :: loop_trace A system parent { function_ := 106, arg_ := 107 } k

/-! ## Symbol expressions (`libcurv/meaning.h`) -/

/-- A `Symbol_Expr`: the shared pointers `id_` and `string_`, each of which may
be null. -/
structure Symbol_Expr where
  id_ : Option Identifier
  string_ : Option String_Expr

/-- The constructor `Symbol_Expr(Shared<const Identifier> id)`:
`id_(id), string_(nullptr)`. -/
def Symbol_Expr.from_id (id : Option Identifier) : Symbol_Expr :=
  { id_ := id, string_ := none }

/-- The constructor `Symbol_Expr(Shared<String_Expr> string)`:
`id_(nullptr), string_(string)`. -/
def Symbol_Expr.from_string (string : Option String_Expr) : Symbol_Expr :=
  { id_ := none, string_ := string }

/-- The member function `syntax()` of `Symbol_Expr`:
`if (id_) return id_; else return string_->syntax_;`. The phrase returned is
given by its address. -/
def Symbol_Expr.syntax_phrase (e : Symbol_Expr) : Except Fault Phrase :=
  match e.id_ with
  | some id => .ok id.phrase
  | none =>
    match e.string_ with
    | none => .error Fault.null_dereference
    | some s => .ok s.syntax_

/-- `Symbol_Expr::eval(f)`:
`return id_ ? id_->symbol_ : string_->eval_symbol(f);`. The member function
`String_Expr_Base::eval_symbol`, whose body is not among the sources, is the
argument `eval_symbol`: it returns a symbol or fails and leaves a frame
behind. -/
def Symbol_Expr.eval (eval_symbol : String_Expr → Frame → Except Fault Symbol_Ref × Frame)
    (e : Symbol_Expr) (f : Frame) : Run Symbol_Ref :=
  match e.id_ with
  | some id => { result := .ok id.symbol_, frame := f, trace := [] }
  | none =>
    match e.string_ with
    | none => { result := .error Fault.null_dereference, frame := f, trace := [] }
    | some s =>
      { result := (eval_symbol s f).1, frame := (eval_symbol s f).2,
        trace := [Event.eval_symbol s f] }

/-! ## Doubles that are natural numbers -/

/-- The number of bits by which the binary expansion of `k` exceeds 53 bits:
`k` is halved until it is below `2 ^ 53`. The first argument bounds the number
of halvings (`k` itself is enough). -/
def excess_bits : Nat → Nat → Nat
  | 0, _ => 0
  | fuel + 1, k => if k < 2 ^ 53 then 0 else excess_bits fuel (k / 2) + 1

/-- Modelled from the spec: the IEEE-754 double nearest to a natural number
(a double has 53 significant bits; the rounding is to nearest, a tie going to
the even significand): with `e` the excess of `k` over 53 bits, the nearest
multiple of `2 ^ e`. The bound on the exponent of a double is left to
`is_natural_double`. -/
def round53 (k : Nat) : Nat :=
  let e := excess_bits k k
  let q := k / 2 ^ e
  let r := k % 2 ^ e
  if 2 * r < 2 ^ e then q * 2 ^ e
  else if 2 ^ e < 2 * r then (q + 1) * 2 ^ e
  else if q % 2 = 0 then q * 2 ^ e else (q + 1) * 2 ^ e

/-- The bound `2 ^ 1024` on the finite doubles, written as a product of four
powers of two. -/
def double_bound : Nat := 2 ^ 256 * 2 ^ 256 * 2 ^ 256 * 2 ^ 256

/-- The natural number `p` is the value of a finite double: rounding leaves it
as it is, and it is below `2 ^ 1024`. -/
def is_natural_double (p : Nat) : Bool :=
  decide (round53 p = p ∧ p < double_bound)

/-- Modelled from the spec: the arithmetic of IEEE-754 doubles on the doubles
whose value is a natural number; everything else is that of the arithmetic
`B`. The code `p` of `Value.num p` is read as the double of value `p` when `p`
is the value of a double. The number that denotes `k` is the double nearest to
`k`; two such doubles are equal when their values are; the difference of two
of them, the second not above the first, is the double nearest to the exact
difference. Other codes, other values and the differences below zero are left
to `B`. -/
def double_arithmetic (B : Arithmetic) : Arithmetic :=
  { number := fun k =>
      if round53 k < double_bound then Value.num (round53 k) else B.number k,
    equal := fun a b =>
      match a, b with
      | Value.num x, Value.num y =>
        if is_natural_double x = true ∧ is_natural_double y = true then decide (x = y)
        else B.equal a b
      | _, _ => B.equal a b,
    subtract := fun a b =>
      match a, b with
      | Value.num x, Value.num y =>
        if is_natural_double x = true ∧ is_natural_double y = true ∧ y ≤ x then
          .ok (Value.num (round53 (x - y)))
        else B.subtract a b
      | _, _ => B.subtract a b }

/-! ## Sample objects -/

/-- A call frame with three slots, created for the call phrase whose function
phrase is at address 10 and whose argument phrase is at address 11. -/
def sample_frame : Frame :=
  { system_ := 0, parent_frame_ := none,
    call_phrase_ := some { function_ := 10, arg_ := 11 },
    nonlocals_ := none, next_op_ := none, result_ := Value.missing, func_ := none,
    array_ := [Value.null, Value.null, Value.null] }

/-- A built-in of arity `n` whose body returns the content of slot 0. -/
def sample_builtin (n : Nat) : Polyadic_Function :=
  { nargs_ := n, nslots_ := n,
    call_frame := fun f => (.ok (f.array_.getD 0 Value.missing), f) }

/-- A table of operations: the `tail_eval` of the operation at address 0 makes
a tail call to the operation at address 1, whose `tail_eval` stores the number
42 as the result; there is no operation at any other address. -/
def sample_tail_eval : Operation_Ptr → Frame → Except Fault Frame
  | 0, f => .ok { f with next_op_ := some 1 }
  | 1, f => .ok { f with result_ := Value.num 42 }
  | _, _ => .error Fault.null_dereference

/-- A frame of the geometry compiler with two slots, both assigned. -/
def sample_gl_frame : GL_Frame :=
  { gl := 40, parent_frame := none, call_phrase := none, nonlocal := none,
    array_ := [some { kind := 1, index := 0 }, some { kind := 1, index := 1 }] }

/-- A compiler that has emitted nothing yet. -/
def sample_gl_compiler : GL_Compiler := { emitted := [] }

/-- A `gl_eval` that yields, for every operation, a value numbered by the
syntax of the operation, and records the evaluation in the compiler. -/
def sample_gl_eval : GL_Eval := fun op f g =>
  (.ok { kind := 1, index := op.syntax_ }, f, { emitted := g.emitted ++ ["eval"] })

/-- A `gl_call` that returns what slot 0 of the callee frame holds. -/
def sample_gl_call : GL_Call := fun f2 g =>
  (match f2.array_.head? with
   | some (some v) => .ok v
   | _ => .error Fault.assertion_failed, g)

/-- The list expression `[a, b]` whose elements have the syntax 21 and 22. -/
def sample_list_expr : Operation :=
  Operation.List_Expr 20 [Operation.other 21 false, Operation.other 22 false] false

/-- An arithmetic on the numbers that denote natural numbers: `Value.num k`
is the number `k`, numbers are equal when their codes are, and subtraction is
that of the natural numbers; an operand that is not a number is a
`TypeMismatch`. -/
def sample_arithmetic : Arithmetic :=
  { number := fun k => Value.num k,
    equal := fun a b =>
      match a, b with
      | Value.num x, Value.num y => decide (x = y)
      | _, _ => false,
    subtract := fun a b =>
      match a, b with
      | Value.num x, Value.num y => .ok (Value.num (x - y))
      | _, _ =>
        .error (Fault.error
          { kind := Error_Kind.TypeMismatch, context := Context.At_Phrase 0 loop_start }) }

/-- An `eval` of the classes that are not modelled which always fails. -/
def sample_eval_other : Operation → Frame → Except Fault Value × Frame :=
  fun _ f => (.error Fault.null_dereference, f)

/-- An `eval_symbol` that yields the symbol held in slot 0 of the frame and
fails when slot 0 holds no symbol. -/
def sample_eval_symbol : String_Expr → Frame → Except Fault Symbol_Ref × Frame :=
  fun _ f =>
    (match f.array_.head? with
     | some (Value.symbol name) => .ok name
     | _ => .error Fault.assertion_failed, f)

/-! ## Printing of strings -/

theorem print_loop_eq (s : String) : ∀ (n i : Nat) (out : List Byte),
    i + n ≤ s.data_.length →
    s.print_loop n i out = out ++ ((s.data_.drop i).take n).flatMap escaped := by
  intro n
  induction n with
  | zero => intro i out _; simp [String.print_loop]
  | succ n ih =>
    intro i out h
    have hi : i < s.data_.length := by omega
    have hd : s.data_.drop i = s.data_[i] :: s.data_.drop (i + 1) :=
      List.drop_eq_getElem_cons hi
    have hg : s.data_.getD i 0 = s.data_[i] := by
      simp [List.getD, List.getElem?_eq_getElem hi]
    rw [String.print_loop, hd, List.take_succ_cons, List.flatMap_cons]
    simp only [hg]
    rw [ih (i + 1) _ (by omega)]
    unfold escaped
    split <;> simp

theorem print_eq (s : String) (out : List Byte) (h : s.size_ ≤ s.data_.length) :
    s.print out = out ++ [dquote] ++ s.bytes.flatMap escaped ++ [dquote] := by
  unfold String.print String.bytes
  simp only []
  rw [print_loop_eq s s.size_ 0 _ (by omega)]
  simp

theorem unescape_flatMap_escaped : ∀ bs : List Byte, unescape (bs.flatMap escaped) = bs := by
  intro bs
  induction bs with
  | nil => simp [unescape]
  | cons c rest ih =>
    rw [List.flatMap_cons]
    by_cases hc : c = dollar ∨ c = dquote
    · have he : escaped c = [c, c] := by simp [escaped, hc]
      rw [he]
      show unescape (c :: c :: rest.flatMap escaped) = c :: rest
      rw [unescape]
      have : (c = dollar ∧ c = dollar) ∨ (c = dquote ∧ c = dquote) := by
        rcases hc with h | h
        · exact Or.inl ⟨h, h⟩
        · exact Or.inr ⟨h, h⟩
      rw [if_pos this, ih]
    · have he : escaped c = [c] := by simp [escaped, hc]
      rw [he]
      show unescape (c :: rest.flatMap escaped) = c :: rest
      cases hr : rest.flatMap escaped with
      | nil =>
        rw [hr] at ih
        rw [unescape, ← ih]
        simp [unescape]
      | cons d tl =>
        rw [unescape]
        have : ¬ ((c = dollar ∧ d = dollar) ∨ (c = dquote ∧ d = dquote)) := by
          rintro (⟨h, _⟩ | ⟨h, _⟩)
          · exact hc (Or.inl h)
          · exact hc (Or.inr h)
        rw [if_neg this, ← hr, ih]

theorem strip_quotes_quoted (m : List Byte) :
    strip_quotes ([] ++ [dquote] ++ m ++ [dquote]) = m := by
  simp [strip_quotes]

/-- C1: for a string holding `size_` bytes, `String::print` appends to the
stream an opening double-quote, then for each byte in index order that byte
twice when it is `$` or `"` and once otherwise, then a closing double-quote,
and nothing else. -/
theorem print_writes_each_byte_escaped (s : String) (out : List Byte)
    (h : s.size_ ≤ s.data_.length) :
    s.print out
      = out ++ [dquote]
          ++ s.bytes.flatMap (fun c => if c = dollar ∨ c = dquote then [c, c] else [c])
          ++ [dquote] :=
  print_eq s out h

theorem print_writes_each_byte_escaped_witness :
    (String.make [97, 36, 98] 3).size_ ≤ (String.make [97, 36, 98] 3).data_.length ∧
    (String.make [97, 36, 98] 3).print [7]
      = [7] ++ [dquote]
          ++ (String.make [97, 36, 98] 3).bytes.flatMap
              (fun c => if c = dollar ∨ c = dquote then [c, c] else [c])
          ++ [dquote] :=
  ⟨by decide, print_writes_each_byte_escaped (String.make [97, 36, 98] 3) [7] (by decide)⟩

/-- C2, as stated, fails: for the six bytes `a $ $ b " c` the text written is
not `"a$$b""c"`. -/
theorem six_bytes_text_differs :
    (String.make [97, 36, 36, 98, 34, 99] 6).print []
      ≠ [34, 97, 36, 36, 98, 34, 34, 99, 34] := by
  decide

/-- C2, amended: for the six bytes `a $ $ b " c`, `String::print` writes
`"a$$$$b""c"`, each `$` and the `"` doubled; the text `"a$$b""c"` is what it
writes for the five bytes `a $ b " c`. -/
theorem print_doubles_both_dollars :
    (String.make [97, 36, 36, 98, 34, 99] 6).print []
      = [34, 97, 36, 36, 36, 36, 98, 34, 34, 99, 34] ∧
    (String.make [97, 36, 98, 34, 99] 5).print []
      = [34, 97, 36, 36, 98, 34, 34, 99, 34] := by
  decide

/-- C3: round trip for strings. From the text `String::print` writes on an
empty stream, removing the first and the last byte and replacing, from left to
right, each pair `$$` by `$` and each pair `""` by `"` gives back the bytes of
the string; hence two strings that print to the same text have the same
bytes. -/
theorem print_round_trip (s : String) (h : s.size_ ≤ s.data_.length) :
    unescape (strip_quotes (s.print [])) = s.bytes ∧
    ∀ t : String, t.size_ ≤ t.data_.length → s.print [] = t.print [] →
      s.bytes = t.bytes := by
  have key : ∀ u : String, u.size_ ≤ u.data_.length →
      unescape (strip_quotes (u.print [])) = u.bytes := by
    intro u hu
    rw [print_eq u [] hu, strip_quotes_quoted, unescape_flatMap_escaped]
  refine ⟨key s h, ?_⟩
  intro t ht heq
  rw [← key s h, ← key t ht, heq]

theorem print_round_trip_witness :
    (String.make [36, 34, 97] 3).size_ ≤ (String.make [36, 34, 97] 3).data_.length ∧
    unescape (strip_quotes ((String.make [36, 34, 97] 3).print []))
      = (String.make [36, 34, 97] 3).bytes :=
  ⟨by decide, (print_round_trip (String.make [36, 34, 97] 3) (by decide)).1⟩

/-! ## Argument binding of built-in functions -/

theorem take_succ_set {α : Type} (l : List α) (i : Nat) (v : α) (h : i < l.length) :
    (l.set i v).take (i + 1) = l.take i ++ [v] := by
  rw [List.set_eq_take_append_cons_drop, if_pos h]
  have hl : (l.take i).length = i := by simp; omega
  rw [List.take_append_eq_append_take, hl]
  simp [List.take_of_length_le, hl]

theorem drop_succ_add_set {α : Type} (l : List α) (i k : Nat) (v : α) :
    (l.set i v).drop (i + 1 + k) = l.drop (i + 1 + k) := by
  rw [List.drop_set_of_lt]
  omega

theorem call_loop_eq : ∀ (rest : List Value) (i : Nat) (f : Frame) (tr : List Event),
    i + rest.length ≤ f.size_ →
    Polyadic_Function.call_loop rest i f tr =
      { result := .ok (),
        frame := { f with array_ := f.array_.take i ++ rest ++ f.array_.drop (i + rest.length) },
        trace := tr ++ (List.range' i rest.length).map Event.index } := by
  intro rest
  induction rest with
  | nil =>
    intro i f tr _
    simp [Polyadic_Function.call_loop]
  | cons v rest ih =>
    intro i f tr h
    have hi : i < f.array_.length := by
      simp only [Frame.size_, List.length_cons] at h; omega
    have hs : f.subscript_assign i v = .ok { f with array_ := f.array_.set i v } := by
      simp [Frame.subscript_assign, Frame.size_, hi]
    rw [Polyadic_Function.call_loop, hs]
    simp only []
    rw [ih (i + 1) _ _ (by simp only [Frame.size_, List.length_set, List.length_cons] at h ⊢; omega)]
    simp only [take_succ_set _ _ _ hi, drop_succ_add_set, List.length_cons, List.range'_succ,
      List.map_cons, List.append_assoc, List.singleton_append]
    have e : i + (rest.length + 1) = i + 1 + rest.length := by omega
    rw [e]

theorem call_mismatch_eq (fn : Polyadic_Function) (arg : Value) (f : Frame)
    (hn : fn.nargs_ ≠ 1)
    (harg : ∀ elems : List Value, arg = Value.list elems → elems.length ≠ fn.nargs_) :
    fn.call arg f = fn.throw_arity f := by
  unfold Polyadic_Function.call
  rw [if_neg hn]
  cases arg with
  | list elems =>
    have hne : ¬ elems.length = fn.nargs_ := harg elems rfl
    simp only [Value.dycast_List, if_neg hne]
  | _ => simp only [Value.dycast_List]

theorem call_one_eq (fn : Polyadic_Function) (v : Value) (f : Frame)
    (h1 : fn.nargs_ = 1) (hs : 0 < f.size_) :
    fn.call v f =
      { result := (fn.call_frame { f with array_ := f.array_.set 0 v }).1,
        frame := (fn.call_frame { f with array_ := f.array_.set 0 v }).2,
        trace := [Event.index 0, Event.call { f with array_ := f.array_.set 0 v }] } := by
  unfold Polyadic_Function.call
  rw [if_pos h1]
  simp [Frame.subscript_assign, hs, Polyadic_Function.return_call]

theorem call_list_eq (fn : Polyadic_Function) (elems : List Value) (f : Frame)
    (hn : fn.nargs_ ≠ 1) (hlen : elems.length = fn.nargs_) (hs : fn.nargs_ ≤ f.size_) :
    fn.call (Value.list elems) f =
      { result := (fn.call_frame { f with array_ := elems ++ f.array_.drop fn.nargs_ }).1,
        frame := (fn.call_frame { f with array_ := elems ++ f.array_.drop fn.nargs_ }).2,
        trace := (List.range fn.nargs_).map Event.index
          ++ [Event.call { f with array_ := elems ++ f.array_.drop fn.nargs_ }] } := by
  unfold Polyadic_Function.call
  rw [if_neg hn]
  simp only [Value.dycast_List, if_pos hlen]
  rw [call_loop_eq elems 0 f [] (by omega)]
  simp [Polyadic_Function.return_call, hlen, List.range_eq_range']

/-- C4: a built-in of arity `n` other than 1, applied in a call frame to a
value that is not a list of length exactly `n`, fails with the exception
"function call argument is not a list of length n" cited at the argument
phrase of the call; it touches no slot, does not invoke the built-in's
`call(f)`, and leaves the frame as it was. -/
theorem call_wrong_arity_throws (fn : Polyadic_Function) (arg : Value) (f : Frame)
    (cp : Call_Phrase) (hn : fn.nargs_ ≠ 1)
    (harg : ∀ elems : List Value, arg = Value.list elems → elems.length ≠ fn.nargs_)
    (hcp : f.call_phrase_ = some cp) :
    fn.call arg f =
      { result := .error (Fault.exception
          { loc := Context.At_Phrase cp.arg_ f,
            what := "function call argument is not a list of length " ++ toString fn.nargs_ }),
        frame := f, trace := [] } := by
  rw [call_mismatch_eq fn arg f hn harg]
  simp only [Polyadic_Function.throw_arity, hcp]

theorem call_wrong_arity_throws_witness :
    (sample_builtin 2).call (Value.list [Value.num 1, Value.num 2, Value.num 3]) sample_frame =
      { result := .error (Fault.exception
          { loc := Context.At_Phrase 11 sample_frame,
            what := "function call argument is not a list of length " ++ toString 2 }),
        frame := sample_frame, trace := [] } :=
  call_wrong_arity_throws (sample_builtin 2)
    (Value.list [Value.num 1, Value.num 2, Value.num 3]) sample_frame
    { function_ := 10, arg_ := 11 } (by decide)
    (by intro elems h; cases h; decide) rfl

/-- C5: a built-in of arity 1, applied to any value `v` in a frame that has a
slot 0, does not take the arity path: its only frame access is `f[0]`, where
it stores `v` as it is (a list is not unpacked), and its result and final
frame are exactly those of the built-in's `call(f)` entered with that frame. -/
theorem call_arity_one_binds_slot_zero (fn : Polyadic_Function) (v : Value) (f : Frame)
    (h1 : fn.nargs_ = 1) (hs : 0 < f.size_) :
    fn.call v f =
      { result := (fn.call_frame { f with array_ := f.array_.set 0 v }).1,
        frame := (fn.call_frame { f with array_ := f.array_.set 0 v }).2,
        trace := [Event.index 0, Event.call { f with array_ := f.array_.set 0 v }] } ∧
    (f.array_.set 0 v)[0]? = some v := by
  have hlen : 0 < f.array_.length := hs
  exact ⟨call_one_eq fn v f h1 hs, by simp [List.getElem?_set_eq_of_lt, hlen]⟩

theorem call_arity_one_binds_slot_zero_witness :
    0 < sample_frame.size_ ∧
    ((sample_builtin 1).call (Value.list [Value.num 1, Value.num 2]) sample_frame).result
      = .ok (Value.list [Value.num 1, Value.num 2]) :=
  ⟨by decide,
   by rw [(call_arity_one_binds_slot_zero (sample_builtin 1)
        (Value.list [Value.num 1, Value.num 2]) sample_frame rfl (by decide)).1]; rfl⟩

/-- C6: a built-in of arity `n` other than 1, applied to a list of length
exactly `n` in a frame with at least `n` slots, accesses the slots
`0, 1, ..., n - 1` in this order, stores element `i` of the list in slot `i`
for every `i < n`, and then returns exactly the result (and leaves the frame)
of the built-in's `call(f)` entered with the frame so updated. -/
theorem call_list_binds_slots (fn : Polyadic_Function) (elems : List Value) (f : Frame)
    (hn : fn.nargs_ ≠ 1) (hlen : elems.length = fn.nargs_) (hs : fn.nargs_ ≤ f.size_) :
    fn.call (Value.list elems) f =
      { result := (fn.call_frame { f with array_ := elems ++ f.array_.drop fn.nargs_ }).1,
        frame := (fn.call_frame { f with array_ := elems ++ f.array_.drop fn.nargs_ }).2,
        trace := (List.range fn.nargs_).map Event.index
          ++ [Event.call { f with array_ := elems ++ f.array_.drop fn.nargs_ }] } ∧
    ∀ i : Nat, i < fn.nargs_ → (elems ++ f.array_.drop fn.nargs_)[i]? = elems[i]? := by
  refine ⟨call_list_eq fn elems f hn hlen hs, ?_⟩
  intro i hi
  rw [List.getElem?_append_left (by omega)]

theorem call_list_binds_slots_witness :
    (sample_builtin 2).nargs_ ≤ sample_frame.size_ ∧
    ((sample_builtin 2).call (Value.list [Value.num 7, Value.num 8]) sample_frame).frame.array_
      = [Value.num 7, Value.num 8, Value.null] ∧
    ((sample_builtin 2).call (Value.list [Value.num 7, Value.num 8]) sample_frame).trace
      = [Event.index 0, Event.index 1,
         Event.call { sample_frame with array_ := [Value.num 7, Value.num 8, Value.null] }] :=
  ⟨by decide,
   by rw [(call_list_binds_slots (sample_builtin 2) [Value.num 7, Value.num 8] sample_frame
        (by decide) rfl (by decide)).1]; rfl,
   by rw [(call_list_binds_slots (sample_builtin 2) [Value.num 7, Value.num 8] sample_frame
        (by decide) rfl (by decide)).1]; rfl⟩

/-- C7: slot-index safety of argument binding. In a frame with at least
`max(n, 1)` slots when the arity `n` is 1 and at least `n` slots otherwise,
every index that `Polyadic_Function::call` passes to `operator[]` is less than
the frame's size, for every argument; the assertion of `operator[]` does not
fail there: an assertion failure can only come out of the built-in's own
`call(f)`. -/
theorem call_slot_indices_in_bounds (fn : Polyadic_Function) (arg : Value) (f : Frame)
    (hs : (if fn.nargs_ = 1 then max fn.nargs_ 1 else fn.nargs_) ≤ f.size_) :
    (∀ i : Nat, Event.index i ∈ (fn.call arg f).trace → i < f.size_) ∧
    ((fn.call arg f).result = .error Fault.assertion_failed →
      ∃ f1 : Frame, Event.call f1 ∈ (fn.call arg f).trace) := by
  by_cases h1 : fn.nargs_ = 1
  · have hs1 : 0 < f.size_ := by rw [if_pos h1, h1] at hs; exact hs
    rw [call_one_eq fn arg f h1 hs1]
    refine ⟨?_, fun _ => ⟨{ f with array_ := f.array_.set 0 arg }, by simp⟩⟩
    intro i hi
    simp at hi
    omega
  · rw [if_neg h1] at hs
    by_cases hl : ∃ elems : List Value, arg = Value.list elems ∧ elems.length = fn.nargs_
    · obtain ⟨elems, rfl, hlen⟩ := hl
      rw [call_list_eq fn elems f h1 hlen hs]
      refine ⟨?_, fun _ => ⟨{ f with array_ := elems ++ f.array_.drop fn.nargs_ }, by simp⟩⟩
      intro i hi
      simp at hi
      omega
    · have harg : ∀ elems : List Value, arg = Value.list elems → elems.length ≠ fn.nargs_ :=
        fun elems he hlen => hl ⟨elems, he, hlen⟩
      rw [call_mismatch_eq fn arg f h1 harg]
      unfold Polyadic_Function.throw_arity
      cases f.call_phrase_ <;> simp

theorem call_slot_indices_in_bounds_witness :
    (if (sample_builtin 3).nargs_ = 1 then max (sample_builtin 3).nargs_ 1
      else (sample_builtin 3).nargs_) ≤ sample_frame.size_ ∧
    Event.index 2 ∈ ((sample_builtin 3).call
        (Value.list [Value.null, Value.null, Value.null]) sample_frame).trace ∧
    2 < sample_frame.size_ :=
  ⟨by decide,
   List.Mem.tail _ (List.Mem.tail _ (List.Mem.head _)),
   (call_slot_indices_in_bounds (sample_builtin 3)
      (Value.list [Value.null, Value.null, Value.null]) sample_frame (by decide)).1 2
      (List.Mem.tail _ (List.Mem.tail _ (List.Mem.head _)))⟩

/-! ## Closures -/

/-- C8: `Closure::call(f)` enters the body `expr_` with a frame that differs
from `f` in the nonlocals pointer only, which now designates the closure's
captured module whatever it was before; no slot is accessed before the body
runs, and the result (and the frame left behind) is exactly that of
evaluating the body in that frame. -/
theorem closure_call_sets_nonlocals
    (eval : Operation_Ptr → Frame → Except Fault Value × Frame) (c : Closure) (f : Frame) :
    ∃ f1 : Frame,
      f1.nonlocals_ = some c.nonlocal_ ∧
      f1.array_ = f.array_ ∧
      f1.system_ = f.system_ ∧ f1.parent_frame_ = f.parent_frame_ ∧
      f1.call_phrase_ = f.call_phrase_ ∧ f1.next_op_ = f.next_op_ ∧
      f1.result_ = f.result_ ∧ f1.func_ = f.func_ ∧
      Closure.call eval c f =
        { result := (eval c.expr_ f1).1, frame := (eval c.expr_ f1).2,
          trace := [Event.eval c.expr_ f1] } :=
  ⟨{ f with nonlocals_ := some c.nonlocal_ }, rfl, rfl, rfl, rfl, rfl, rfl, rfl, rfl, rfl⟩

/-! ## Executors -/

theorem lookup_append_singleton (name : Symbol_Ref) (v : Value) (k : Symbol_Ref) :
    ∀ fields : List (Symbol_Ref × Value),
      (fields ++ [(name, v)]).lookup k =
        match fields.lookup k with
        | some x => some x
        | none => if k = name then some v else none := by
  intro fields
  induction fields with
  | nil =>
    by_cases h : k = name
    · simp [List.lookup, h]
    · have hb : (k == name) = false := by simp [h]
      simp [List.lookup, hb, h]
  | cons p rest ih =>
    obtain ⟨k1, x1⟩ := p
    by_cases h : k = k1
    · simp [List.lookup, h]
    · have hb : (k == k1) = false := by simp [h]
      simp only [List.cons_append, List.lookup, hb]
      exact ih

/-- C9: the three stock executors. The action executor fails with
`NotAnAction` on `push_value` and on `push_field`; the list executor appends
the value at the end of its list on `push_value` and fails with `FieldInList`
on `push_field`; the record executor fails with `ValueInRecord` on
`push_value` and on `push_field` inserts the field: a name the record does not
hold yet is bound to the value and every other name keeps what it had, while a
name it holds already fails with `DuplicateField`. Every failure leaves the
list or record as it was. -/
theorem executors_discriminate (v : Value) (name : Symbol_Ref) (cx : Context)
    (l : List_Executor) (r : Record_Executor) :
    Action_Executor.push_value v cx
      = .error { kind := Error_Kind.NotAnAction, context := cx } ∧
    Action_Executor.push_field name v cx
      = .error { kind := Error_Kind.NotAnAction, context := cx } ∧
    l.push_value v cx = (.ok (), { list_ := l.list_ ++ [v] }) ∧
    l.push_field name v cx
      = (.error { kind := Error_Kind.FieldInList, context := cx }, l) ∧
    r.push_value v cx
      = (.error { kind := Error_Kind.ValueInRecord, context := cx }, r) ∧
    (r.record_.find name = none →
      (r.push_field name v cx).1 = .ok () ∧
      (r.push_field name v cx).2.record_.fields_ = r.record_.fields_ ++ [(name, v)] ∧
      (r.push_field name v cx).2.record_.find name = some v ∧
      ∀ other : Symbol_Ref, other ≠ name →
        (r.push_field name v cx).2.record_.find other = r.record_.find other) ∧
    (∀ old : Value, r.record_.find name = some old →
      r.push_field name v cx
        = (.error { kind := Error_Kind.DuplicateField, context := cx }, r)) := by
  refine ⟨rfl, rfl, rfl, rfl, rfl, ?_, ?_⟩
  · intro hnone
    have hp : r.push_field name v cx
        = (.ok (), { record_ := { fields_ := r.record_.fields_ ++ [(name, v)] } }) := by
      simp only [Record_Executor.push_field, hnone]
    rw [hp]
    refine ⟨rfl, rfl, ?_, ?_⟩
    · have := lookup_append_singleton name v name r.record_.fields_
      simp only [DRecord.find] at hnone ⊢
      rw [this, hnone]
      simp
    · intro other hne
      have := lookup_append_singleton name v other r.record_.fields_
      simp only [DRecord.find]
      rw [this]
      cases r.record_.fields_.lookup other with
      | none => simp [hne]
      | some x => rfl
  · intro old hsome
    simp only [Record_Executor.push_field, hsome]

theorem executors_discriminate_witness :
    DRecord.find { fields_ := [("x", Value.num 1)] } "y" = none ∧
    ((Record_Executor.mk { fields_ := [("x", Value.num 1)] }).push_field "y" (Value.num 2)
        (Context.At_Phrase 3 sample_frame)).2.record_.fields_
      = [("x", Value.num 1), ("y", Value.num 2)] ∧
    (Record_Executor.mk { fields_ := [("x", Value.num 1)] }).push_field "x" (Value.num 2)
        (Context.At_Phrase 3 sample_frame)
      = (.error { kind := Error_Kind.DuplicateField,
                  context := Context.At_Phrase 3 sample_frame },
         Record_Executor.mk { fields_ := [("x", Value.num 1)] }) :=
  ⟨rfl,
   ((executors_discriminate (Value.num 2) "y" (Context.At_Phrase 3 sample_frame)
      { list_ := [] } (Record_Executor.mk { fields_ := [("x", Value.num 1)] })).2.2.2.2.2.1
      (rfl)).2.1,
   (executors_discriminate (Value.num 2) "x" (Context.At_Phrase 3 sample_frame)
      { list_ := [] } (Record_Executor.mk { fields_ := [("x", Value.num 1)] })).2.2.2.2.2.2
      (Value.num 1) (rfl)⟩

/-! ## The tail-evaluation driver -/

theorem tail_eval_frame_none (tail_eval : Operation_Ptr → Frame → Except Fault Frame)
    (fuel : Nat) (f : Frame) (tr : List Tail_Call) (h : f.next_op_ = none) :
    tail_eval_frame tail_eval fuel f tr = (some (.ok f.result_), tr) := by
  unfold tail_eval_frame
  simp only [h]

theorem tail_eval_frame_zero (tail_eval : Operation_Ptr → Frame → Except Fault Frame)
    (f : Frame) (tr : List Tail_Call) (op : Operation_Ptr) (h : f.next_op_ = some op) :
    tail_eval_frame tail_eval 0 f tr = (none, tr) := by
  unfold tail_eval_frame
  simp only [h]

theorem tail_eval_frame_succ (tail_eval : Operation_Ptr → Frame → Except Fault Frame)
    (fuel : Nat) (f : Frame) (tr : List Tail_Call) (op : Operation_Ptr)
    (h : f.next_op_ = some op) :
    tail_eval_frame tail_eval (fuel + 1) f tr =
      match tail_eval op { f with next_op_ := none } with
      | .error e => (some (.error e), tr ++ [{ op := op, f := { f with next_op_ := none } }])
      | .ok f2 =>
        tail_eval_frame tail_eval fuel f2 (tr ++ [{ op := op, f := { f with next_op_ := none } }]) := by
  conv_lhs => unfold tail_eval_frame
  simp only [h]

theorem tail_eval_frame_mono (tail_eval : Operation_Ptr → Frame → Except Fault Frame) :
    ∀ (fuel more : Nat) (f : Frame) (tr : List Tail_Call) (r : Except Fault Value),
      (tail_eval_frame tail_eval fuel f tr).1 = some r →
      tail_eval_frame tail_eval (fuel + more) f tr = tail_eval_frame tail_eval fuel f tr := by
  intro fuel
  induction fuel with
  | zero =>
    intro more f tr r h
    cases hop : f.next_op_ with
    | none => rw [tail_eval_frame_none _ _ _ _ hop, tail_eval_frame_none _ _ _ _ hop]
    | some op =>
      rw [tail_eval_frame_zero _ _ _ op hop] at h
      cases h
  | succ fuel ih =>
    intro more f tr r h
    cases hop : f.next_op_ with
    | none => rw [tail_eval_frame_none _ _ _ _ hop, tail_eval_frame_none _ _ _ _ hop]
    | some op =>
      have e : fuel + 1 + more = (fuel + more) + 1 := by omega
      rw [e, tail_eval_frame_succ _ _ _ _ op hop]
      rw [tail_eval_frame_succ _ _ _ _ op hop] at h ⊢
      cases hte : tail_eval op { f with next_op_ := none } with
      | error e => rfl
      | ok f2 =>
        simp only [hte] at h ⊢
        exact ih more f2 _ r h

/-- C10: `tail_eval_frame` is the trampoline loop. Called on a frame whose
`next_op_` is unset it returns that frame's `result_` and invokes no
operation. Called on a frame whose `next_op_` is set it invokes the
`tail_eval` of that operation on the frame with the register cleared; a
failure of the operation ends the loop, and otherwise the loop goes on with
the frame the operation left in place. A result reached within some number of
iterations is the result for every larger bound. -/
theorem tail_eval_frame_is_trampoline
    (tail_eval : Operation_Ptr → Frame → Except Fault Frame) (f : Frame) :
    (f.next_op_ = none → ∀ (fuel : Nat) (tr : List Tail_Call),
      tail_eval_frame tail_eval fuel f tr = (some (.ok f.result_), tr)) ∧
    (∀ op : Operation_Ptr, f.next_op_ = some op → ∀ (fuel : Nat) (tr : List Tail_Call),
      tail_eval_frame tail_eval (fuel + 1) f tr =
        match tail_eval op { f with next_op_ := none } with
        | .error e =>
          (some (.error e), tr ++ [{ op := op, f := { f with next_op_ := none } }])
        | .ok f2 =>
          tail_eval_frame tail_eval fuel f2
            (tr ++ [{ op := op, f := { f with next_op_ := none } }])) ∧
    (∀ (fuel more : Nat) (tr : List Tail_Call) (r : Except Fault Value),
      (tail_eval_frame tail_eval fuel f tr).1 = some r →
      tail_eval_frame tail_eval (fuel + more) f tr = tail_eval_frame tail_eval fuel f tr) :=
  ⟨fun h fuel tr => tail_eval_frame_none tail_eval fuel f tr h,
   fun op h fuel tr => tail_eval_frame_succ tail_eval fuel f tr op h,
   fun fuel more tr r h => tail_eval_frame_mono tail_eval fuel more f tr r h⟩

theorem tail_eval_frame_is_trampoline_witness :
    sample_frame.next_op_ = none ∧
    tail_eval_frame sample_tail_eval 0 sample_frame [] = (some (.ok Value.missing), []) ∧
    tail_eval_frame sample_tail_eval 7 { sample_frame with next_op_ := some 0 } []
      = tail_eval_frame sample_tail_eval 2 { sample_frame with next_op_ := some 0 } [] ∧
    tail_eval_frame sample_tail_eval 2 { sample_frame with next_op_ := some 0 } []
      = (some (.ok (Value.num 42)),
         [{ op := 0, f := sample_frame },
          { op := 1, f := sample_frame }]) :=
  ⟨rfl,
   (tail_eval_frame_is_trampoline sample_tail_eval sample_frame).1 rfl 0 [],
   (tail_eval_frame_is_trampoline sample_tail_eval
      { sample_frame with next_op_ := some 0 }).2.2 2 5 [] (.ok (Value.num 42)) rfl,
   rfl⟩

/-! ## Construction of strings -/

/-- C14: when the allocation succeeds and the buffer `str` holds at least
`len` bytes, `String::make(str, len)` returns a string whose `size_` is `len`,
whose bytes at the indices below `len` are those of `str` at the same indices
(a NUL among them is copied like any other byte, so the length does not come
from a terminator), and whose byte at index `len` is NUL. -/
theorem make_copies_len_bytes (str : List Byte) (len : Nat) (h : len ≤ str.length) :
    ∃ s : String, String.make_alloc true str len = some s ∧
      s.size_ = len ∧
      (∀ i : Nat, i < len → s.data_[i]? = str[i]?) ∧
      s.data_[len]? = some 0 ∧
      s.bytes = str.take len := by
  refine ⟨String.make str len, rfl, rfl, ?_, ?_, ?_⟩
  · intro i hi
    have hl : i < (str.take len).length := by simp; omega
    simp only [String.make]
    rw [List.getElem?_append_left hl, List.getElem?_take_of_lt hi]
  · have hl : (str.take len).length = len := by simp; omega
    simp only [String.make]
    rw [List.getElem?_append_right (by omega), hl]
    simp
  · have hl : (str.take len).length = len := by simp; omega
    simp only [String.bytes, String.make]
    rw [List.take_append_of_le_length (by omega), List.take_take]
    simp

theorem make_copies_len_bytes_witness :
    3 ≤ [97, 0, 98, 99].length ∧
    String.make_alloc true [97, 0, 98, 99] 3 = some { size_ := 3, data_ := [97, 0, 98, 0] } ∧
    ∃ s : String, String.make_alloc true [97, 0, 98, 99] 3 = some s ∧ s.size_ = 3 ∧
      s.data_[3]? = some 0 :=
  ⟨by decide, rfl,
   (make_copies_len_bytes [97, 0, 98, 99] 3 (by decide)).elim
     fun s hs => ⟨s, hs.1, hs.2.1, hs.2.2.2.1⟩⟩

/-! ## Frame effect of argument binding -/

theorem same_registers_refl (f : Frame) : Frame.same_registers f f :=
  ⟨rfl, rfl, rfl, rfl, rfl, rfl, rfl, rfl⟩

theorem call_loop_effect : ∀ (rest : List Value) (i : Nat) (f : Frame) (tr : List Event),
    (∃ is : List Nat,
      (Polyadic_Function.call_loop rest i f tr).trace = tr ++ is.map Event.index) ∧
    ((Polyadic_Function.call_loop rest i f tr).result = .ok () ∨
      (Polyadic_Function.call_loop rest i f tr).result = .error Fault.assertion_failed) ∧
    Frame.same_registers f (Polyadic_Function.call_loop rest i f tr).frame ∧
    ∀ j : Nat, (j < i ∨ i + rest.length ≤ j) →
      (Polyadic_Function.call_loop rest i f tr).frame.array_[j]? = f.array_[j]? := by
  intro rest
  induction rest with
  | nil =>
    intro i f tr
    refine ⟨⟨[], by simp [Polyadic_Function.call_loop]⟩, Or.inl rfl,
      same_registers_refl f, fun j _ => rfl⟩
  | cons v rest ih =>
    intro i f tr
    by_cases hi : i < f.size_
    · have hs : f.subscript_assign i v = .ok { f with array_ := f.array_.set i v } := by
        simp [Frame.subscript_assign, hi]
      rw [Polyadic_Function.call_loop, hs]
      simp only []
      obtain ⟨⟨is, htr⟩, hres, hreg, hslots⟩ :=
        ih (i + 1) { f with array_ := f.array_.set i v } (tr ++ [Event.index i])
      refine ⟨⟨i :: is, by rw [htr]; simp⟩, hres, ?_, ?_⟩
      · obtain ⟨h1, h2, h3, h4, h5, h6, h7, h8⟩ := hreg
        refine ⟨h1, h2, h3, h4, h5, h6, h7, ?_⟩
        simp only [Frame.size_, List.length_set] at h8 ⊢
        exact h8
      · intro j hj
        rw [hslots j (by simp only [List.length_cons] at hj; omega)]
        have hne : i ≠ j := by simp only [List.length_cons] at hj; omega
        simp [List.getElem?_set_ne hne]
    · have hs : f.subscript_assign i v = .error Fault.assertion_failed := by
        simp [Frame.subscript_assign, hi]
      rw [Polyadic_Function.call_loop, hs]
      refine ⟨⟨[i], by simp⟩, Or.inr rfl, same_registers_refl f, fun j _ => rfl⟩

theorem not_mem_map_index (is : List Nat) (f1 : Frame) :
    Event.call f1 ∉ is.map Event.index := by
  intro h
  simp at h

/-- C19: atomicity of the arity failure. When `Polyadic_Function::call(arg, f)`
ends with an exception without having entered the built-in's `call(f)` (the
exception is its own arity error), the frame is exactly as it was before the
call and no slot has been accessed. -/
theorem call_arity_failure_is_atomic (fn : Polyadic_Function) (arg : Value) (f : Frame)
    (e : Exception)
    (hres : (fn.call arg f).result = .error (Fault.exception e))
    (hown : ∀ f1 : Frame, Event.call f1 ∉ (fn.call arg f).trace) :
    (fn.call arg f).frame = f ∧ (fn.call arg f).trace = [] ∧
    fn.call arg f = fn.throw_arity f := by
  have hthrow : (fn.throw_arity f).frame = f ∧ (fn.throw_arity f).trace = [] := by
    unfold Polyadic_Function.throw_arity
    cases f.call_phrase_ <;> exact ⟨rfl, rfl⟩
  unfold Polyadic_Function.call at hres hown ⊢
  by_cases h1 : fn.nargs_ = 1
  · simp only [if_pos h1] at hres hown ⊢
    by_cases hs : 0 < f.size_
    · simp only [Frame.subscript_assign, if_pos hs, Polyadic_Function.return_call] at hown
      exact absurd (by simp) (hown { f with array_ := f.array_.set 0 arg })
    · simp [Frame.subscript_assign, hs] at hres
  · simp only [if_neg h1] at hres hown ⊢
    cases hd : arg.dycast_List with
    | none => exact ⟨hthrow.1, hthrow.2, rfl⟩
    | some list =>
      simp only [hd] at hres hown ⊢
      by_cases hl : list.length = fn.nargs_
      · simp only [if_pos hl] at hres hown ⊢
        obtain ⟨⟨is, htr⟩, hr, _, _⟩ := call_loop_effect list 0 f []
        rcases hr with hok | herr
        · simp only [hok, Polyadic_Function.return_call] at hown
          exact absurd (by simp) (hown (Polyadic_Function.call_loop list 0 f []).frame)
        · simp [herr] at hres
      · simp only [if_neg hl] at hres hown ⊢
        exact ⟨hthrow.1, hthrow.2, trivial⟩

theorem call_arity_failure_is_atomic_witness :
    ((sample_builtin 2).call (Value.num 5) sample_frame).frame = sample_frame ∧
    ((sample_builtin 2).call (Value.num 5) sample_frame).trace = [] :=
  ⟨(call_arity_failure_is_atomic (sample_builtin 2) (Value.num 5) sample_frame
      { loc := Context.At_Phrase 11 sample_frame,
        what := "function call argument is not a list of length " ++ toString 2 }
      rfl (fun _ h => nomatch h)).1,
   (call_arity_failure_is_atomic (sample_builtin 2) (Value.num 5) sample_frame
      { loc := Context.At_Phrase 11 sample_frame,
        what := "function call argument is not a list of length " ++ toString 2 }
      rfl (fun _ h => nomatch h)).2.1⟩

/-- C20: frame effect of argument binding. Whenever `Polyadic_Function::call`
enters the built-in's `call(f)`, the frame it enters it with has the non-slot
fields and the size of the frame before the call, and every slot from index 1
on (arity 1), respectively from index `n` on (arity `n` other than 1), holds
what it held before the call. -/
theorem call_changes_argument_slots_only (fn : Polyadic_Function) (arg : Value)
    (f f1 : Frame) (h : Event.call f1 ∈ (fn.call arg f).trace) :
    f1.system_ = f.system_ ∧ f1.parent_frame_ = f.parent_frame_ ∧
    f1.call_phrase_ = f.call_phrase_ ∧ f1.nonlocals_ = f.nonlocals_ ∧
    f1.next_op_ = f.next_op_ ∧ f1.result_ = f.result_ ∧ f1.func_ = f.func_ ∧
    f1.size_ = f.size_ ∧
    ∀ i : Nat, (if fn.nargs_ = 1 then 1 else fn.nargs_) ≤ i →
      f1.array_[i]? = f.array_[i]? := by
  have hthrow : (fn.throw_arity f).trace = [] := by
    unfold Polyadic_Function.throw_arity
    cases f.call_phrase_ <;> rfl
  unfold Polyadic_Function.call at h
  by_cases h1 : fn.nargs_ = 1
  · simp only [if_pos h1] at h ⊢
    by_cases hs : 0 < f.size_
    · simp only [Frame.subscript_assign, if_pos hs, Polyadic_Function.return_call] at h
      simp at h
      subst h
      refine ⟨rfl, rfl, rfl, rfl, rfl, rfl, rfl, by simp [Frame.size_], ?_⟩
      intro i hi
      have hne : 0 ≠ i := by omega
      simp [List.getElem?_set_ne hne]
    · simp [Frame.subscript_assign, hs] at h
  · simp only [if_neg h1] at h ⊢
    cases hd : arg.dycast_List with
    | none => simp [hd, hthrow] at h
    | some list =>
      simp only [hd] at h
      by_cases hl : list.length = fn.nargs_
      · simp only [if_pos hl] at h
        obtain ⟨⟨is, htr⟩, hr, hreg, hslots⟩ := call_loop_effect list 0 f []
        rcases hr with hok | herr
        · simp only [hok, Polyadic_Function.return_call, htr] at h
          simp at h
          subst h
          obtain ⟨g1, g2, g3, g4, g5, g6, g7, g8⟩ := hreg
          refine ⟨g1, g2, g3, g4, g5, g6, g7, g8, ?_⟩
          intro i hi
          exact hslots i (Or.inr (by omega))
        · simp only [herr, htr] at h
          simp at h
      · simp [if_neg hl, hthrow] at h

theorem call_changes_argument_slots_only_witness :
    ({ sample_frame with array_ := [Value.num 7, Value.num 8, Value.null] } : Frame).array_[2]?
      = sample_frame.array_[2]? :=
  (call_changes_argument_slots_only (sample_builtin 2)
    (Value.list [Value.num 7, Value.num 8]) sample_frame
    { sample_frame with array_ := [Value.num 7, Value.num 8, Value.null] }
    (List.Mem.tail _ (List.Mem.tail _ (List.Mem.head _)))).2.2.2.2.2.2.2.2 2 (by decide)

/-! ## Purity flags -/

theorem forall_mem_append {α : Type} (p : α → Prop) (a b : List α) :
    (∀ l ∈ a ++ b, p l) ↔ (∀ l ∈ a, p l) ∧ (∀ l ∈ b, p l) := by
  simp only [List.mem_append]
  constructor
  · intro h
    exact ⟨fun l hl => h l (Or.inl hl), fun l hl => h l (Or.inr hl)⟩
  · rintro ⟨h1, h2⟩ l (hl | hl)
    · exact h1 l hl
    · exact h2 l hl

theorem pure_iff_leaves_pure :
    ∀ op : Operation, op.pure_ = true ↔ ∀ l ∈ op.leaves, l.pure_ = true
  | .Constant s v => by simp [Operation.pure_, Operation.leaves]
  | .Data_Ref s v => by simp [Operation.pure_, Operation.leaves]
  | .Nonlocal_Data_Ref s v => by simp [Operation.pure_, Operation.leaves]
  | .Prefix_Expr_Base k s a => by
    simp only [Operation.pure_, Operation.leaves]
    exact pure_iff_leaves_pure a
  | .Infix_Expr_Base k s a b => by
    simp only [Operation.pure_, Operation.leaves, Bool.and_eq_true, forall_mem_append,
      pure_iff_leaves_pure a, pure_iff_leaves_pure b]
  | .Call_Expr s a b => by
    simp only [Operation.pure_, Operation.leaves, Bool.and_eq_true, forall_mem_append,
      pure_iff_leaves_pure a, pure_iff_leaves_pure b]
  | .If_Else_Op s a b c => by
    simp only [Operation.pure_, Operation.leaves, Bool.and_eq_true, forall_mem_append,
      pure_iff_leaves_pure a, pure_iff_leaves_pure b, pure_iff_leaves_pure c]
  | .List_Expr s e p => by simp [Operation.pure_, Operation.leaves]
  | .other s p => by simp [Operation.pure_, Operation.leaves]

theorem pure_nodes_pure :
    ∀ op : Operation, op.pure_ = true → ∀ d ∈ op.nodes, d.pure_ = true
  | .Constant s v => by
    intro h d hd
    simp only [Operation.nodes, List.mem_singleton] at hd
    rw [hd]; exact h
  | .Data_Ref s v => by
    intro h d hd
    simp only [Operation.nodes, List.mem_singleton] at hd
    rw [hd]; exact h
  | .Nonlocal_Data_Ref s v => by
    intro h d hd
    simp only [Operation.nodes, List.mem_singleton] at hd
    rw [hd]; exact h
  | .Prefix_Expr_Base k s a => by
    intro h d hd
    simp only [Operation.nodes, List.mem_cons] at hd
    rcases hd with rfl | hd
    · exact h
    · exact pure_nodes_pure a (by simpa [Operation.pure_] using h) d hd
  | .Infix_Expr_Base k s a b => by
    intro h d hd
    simp only [Operation.nodes, List.mem_cons, List.mem_append] at hd
    have h2 : a.pure_ = true ∧ b.pure_ = true := by simpa [Operation.pure_] using h
    rcases hd with rfl | hd | hd
    · exact h
    · exact pure_nodes_pure a h2.1 d hd
    · exact pure_nodes_pure b h2.2 d hd
  | .Call_Expr s a b => by
    intro h d hd
    simp only [Operation.nodes, List.mem_cons, List.mem_append] at hd
    have h2 : a.pure_ = true ∧ b.pure_ = true := by simpa [Operation.pure_] using h
    rcases hd with rfl | hd | hd
    · exact h
    · exact pure_nodes_pure a h2.1 d hd
    · exact pure_nodes_pure b h2.2 d hd
  | .If_Else_Op s a b c => by
    intro h d hd
    simp only [Operation.nodes, List.mem_cons, List.mem_append] at hd
    have h2 : (a.pure_ = true ∧ b.pure_ = true) ∧ c.pure_ = true := by
      simpa [Operation.pure_] using h
    rcases hd with rfl | (hd | hd) | hd
    · exact h
    · exact pure_nodes_pure a h2.1.1 d hd
    · exact pure_nodes_pure b h2.1.2 d hd
    · exact pure_nodes_pure c h2.2 d hd
  | .List_Expr s e p => by
    intro h d hd
    simp only [Operation.nodes, List.mem_singleton] at hd
    rw [hd]; exact h
  | .other s p => by
    intro h d hd
    simp only [Operation.nodes, List.mem_singleton] at hd
    rw [hd]; exact h

/-- C12: the purity flags are computed by the constructors from the flags of
the children: a `Constant` is pure; a prefix node has the flag of its
argument; an infix node and a `Call_Expr` have the conjunction of the flags of
their two children; an `If_Else_Op` has the conjunction of the flags of its
three children. Hence the root of a tree built from these nodes is pure
exactly when every leaf is, and a node that is not pure anywhere in the tree
makes the root (and so each of its ancestors) not pure. -/
theorem purity_is_compositional :
    (∀ (s : Phrase) (v : Value), (Operation.Constant s v).pure_ = true) ∧
    (∀ (k : Prefix_Class) (s : Phrase) (a : Operation),
      (Operation.Prefix_Expr_Base k s a).pure_ = a.pure_) ∧
    (∀ (k : Infix_Class) (s : Phrase) (a b : Operation),
      (Operation.Infix_Expr_Base k s a b).pure_ = (a.pure_ && b.pure_)) ∧
    (∀ (s : Phrase) (a b : Operation),
      (Operation.Call_Expr s a b).pure_ = (a.pure_ && b.pure_)) ∧
    (∀ (s : Phrase) (a b c : Operation),
      (Operation.If_Else_Op s a b c).pure_ = (a.pure_ && b.pure_ && c.pure_)) ∧
    (∀ op : Operation, op.pure_ = true ↔ ∀ l ∈ op.leaves, l.pure_ = true) ∧
    (∀ op d : Operation, d ∈ op.nodes → d.pure_ = false → op.pure_ = false) := by
  refine ⟨fun _ _ => rfl, fun _ _ _ => rfl, fun _ _ _ _ => rfl, fun _ _ _ => rfl,
    fun _ _ _ _ => rfl, pure_iff_leaves_pure, ?_⟩
  intro op d hd hfalse
  cases hp : op.pure_ with
  | false => rfl
  | true =>
    have := pure_nodes_pure op hp d hd
    rw [hfalse] at this
    exact absurd this (by decide)

theorem purity_is_compositional_witness :
    Operation.Constant 3 (Value.num 1) ∈
      (Operation.Call_Expr 1 (Operation.Data_Ref 2 0) (Operation.Constant 3 (Value.num 1))).leaves ∧
    (Operation.Call_Expr 1 (Operation.Data_Ref 2 0) (Operation.Constant 3 (Value.num 1))).pure_
      = false ∧
    (Operation.If_Else_Op 4 (Operation.Constant 5 (Value.bool true))
      (Operation.Constant 6 (Value.num 1)) (Operation.Constant 7 (Value.num 2))).pure_ = true :=
  ⟨List.Mem.tail _ (List.Mem.head _),
   purity_is_compositional.2.2.2.2.2.2
     (Operation.Call_Expr 1 (Operation.Data_Ref 2 0) (Operation.Constant 3 (Value.num 1)))
     (Operation.Data_Ref 2 0) (List.Mem.tail _ (List.Mem.head _)) rfl,
   (purity_is_compositional.2.2.2.2.2.1
     (Operation.If_Else_Op 4 (Operation.Constant 5 (Value.bool true))
       (Operation.Constant 6 (Value.num 1)) (Operation.Constant 7 (Value.num 2)))).2
     (fun l hl => by
       simp only [Operation.leaves, List.cons_append, List.nil_append, List.mem_cons,
         List.mem_singleton, List.not_mem_nil, or_false] at hl
       rcases hl with rfl | rfl | rfl <;> rfl)⟩

/-! ## The geometry compiler interface of functions -/

theorem gl_bind_ok (gl_eval : GL_Eval) (op : Operation) (i : Nat) (f : GL_Frame)
    (g : GL_Compiler) (f2 : GL_Frame) (tr : List GL_Event) (v : GL_Value)
    (f1 : GL_Frame) (g1 : GL_Compiler)
    (he : gl_eval op f g = (.ok v, f1, g1)) (hi : i < f2.array_.length) :
    Polyadic_Function.gl_bind gl_eval op i f g f2 tr =
      { result := .ok { f2 with array_ := f2.array_.set i (some v) }, frame := f1, gl := g1,
        trace := tr ++ [GL_Event.gl_eval op f, GL_Event.index i] } := by
  simp [Polyadic_Function.gl_bind, he, GL_Frame.subscript_assign, hi]

theorem gl_call_loop_ok (gl_eval : GL_Eval) :
    ∀ (elems : List Operation) (i : Nat) (f : GL_Frame) (g : GL_Compiler) (f2 : GL_Frame)
      (tr : List GL_Event) (vals : List GL_Value) (f1 : GL_Frame) (g1 : GL_Compiler)
      (calls : List (Operation × GL_Frame)),
      gl_eval_in_order gl_eval elems f g = (.ok vals, f1, g1, calls) →
      i + elems.length ≤ f2.array_.length →
      vals.length = elems.length ∧
      Polyadic_Function.gl_call_loop gl_eval elems i f g f2 tr =
        { result := .ok { f2 with
            array_ := f2.array_.take i ++ vals.map some ++ f2.array_.drop (i + elems.length) },
          frame := f1, gl := g1, trace := tr ++ gl_bind_events calls i } := by
  intro elems
  induction elems with
  | nil =>
    intro i f g f2 tr vals f1 g1 calls h _
    simp only [gl_eval_in_order, Prod.mk.injEq, Except.ok.injEq] at h
    obtain ⟨rfl, rfl, rfl, rfl⟩ := h
    simp [Polyadic_Function.gl_call_loop, gl_bind_events]
  | cons op rest ih =>
    intro i f g f2 tr vals f1 g1 calls h hlen
    have hi : i < f2.array_.length := by simp only [List.length_cons] at hlen; omega
    rw [gl_eval_in_order] at h
    rcases he : gl_eval op f g with ⟨r, fa, ga⟩
    rw [he] at h
    cases r with
    | error e => simp at h
    | ok v =>
      simp only [] at h
      rcases hr : gl_eval_in_order gl_eval rest fa ga with ⟨rr, fb, gb, cs⟩
      rw [hr] at h
      cases rr with
      | error e => simp at h
      | ok vs =>
        simp only [Prod.mk.injEq, Except.ok.injEq] at h
        obtain ⟨rfl, rfl, rfl, rfl⟩ := h
        obtain ⟨hvl, hloop⟩ := ih (i + 1) fa ga { f2 with array_ := f2.array_.set i (some v) }
          (tr ++ [GL_Event.gl_eval op f, GL_Event.index i]) vs fb gb cs hr
          (by simp only [List.length_set, List.length_cons] at hlen ⊢; omega)
        refine ⟨by simp [hvl], ?_⟩
        rw [Polyadic_Function.gl_call_loop, gl_bind_ok gl_eval op i f g f2 tr v fa ga he hi]
        simp only []
        rw [hloop]
        simp only [take_succ_set _ _ _ hi, drop_succ_add_set, List.length_cons, gl_bind_events,
          List.map_cons, List.append_assoc, List.singleton_append, List.cons_append,
          List.nil_append]
        have e : i + (rest.length + 1) = i + 1 + rest.length := by omega
        rw [e]

theorem gl_bind_effect (gl_eval : GL_Eval) (op : Operation) (i : Nat) (f : GL_Frame)
    (g : GL_Compiler) (f2 : GL_Frame) (tr : List GL_Event) :
    (∃ rest : List GL_Event,
      (Polyadic_Function.gl_bind gl_eval op i f g f2 tr).trace = tr ++ rest) ∧
    ((∀ (o : Operation) (a : GL_Frame) (b : GL_Compiler),
        (gl_eval o a b).1 ≠ .error Fault.null_dereference) →
      (Polyadic_Function.gl_bind gl_eval op i f g f2 tr).result
        ≠ .error Fault.null_dereference) := by
  unfold Polyadic_Function.gl_bind
  rcases he : gl_eval op f g with ⟨r, fa, ga⟩
  cases r with
  | error e =>
    refine ⟨⟨_, rfl⟩, ?_⟩
    intro h
    have := h op f g
    rw [he] at this
    simpa using this
  | ok v =>
    simp only [GL_Frame.subscript_assign]
    by_cases hi : i < f2.array_.length
    · simp only [if_pos hi]
      exact ⟨⟨_, rfl⟩, fun _ => by simp⟩
    · simp only [if_neg hi]
      exact ⟨⟨_, rfl⟩, fun _ => by simp⟩

theorem gl_call_loop_effect (gl_eval : GL_Eval) :
    ∀ (elems : List Operation) (i : Nat) (f : GL_Frame) (g : GL_Compiler) (f2 : GL_Frame)
      (tr : List GL_Event),
      (∃ rest : List GL_Event,
        (Polyadic_Function.gl_call_loop gl_eval elems i f g f2 tr).trace = tr ++ rest) ∧
      ((∀ (o : Operation) (a : GL_Frame) (b : GL_Compiler),
          (gl_eval o a b).1 ≠ .error Fault.null_dereference) →
        (Polyadic_Function.gl_call_loop gl_eval elems i f g f2 tr).result
          ≠ .error Fault.null_dereference) := by
  intro elems
  induction elems with
  | nil =>
    intro i f g f2 tr
    exact ⟨⟨[], by simp [Polyadic_Function.gl_call_loop]⟩,
      fun _ => by simp [Polyadic_Function.gl_call_loop]⟩
  | cons op rest ih =>
    intro i f g f2 tr
    obtain ⟨⟨r1, htr⟩, hnull⟩ := gl_bind_effect gl_eval op i f g f2 tr
    rw [Polyadic_Function.gl_call_loop]
    cases hr : (Polyadic_Function.gl_bind gl_eval op i f g f2 tr).result with
    | error e =>
      simp only [hr]
      refine ⟨⟨r1, htr⟩, ?_⟩
      intro h
      have := hnull h
      rw [hr] at this
      exact this
    | ok f3 =>
      simp only [hr]
      obtain ⟨⟨r2, htr2⟩, hnull2⟩ := ih (i + 1)
        (Polyadic_Function.gl_bind gl_eval op i f g f2 tr).frame
        (Polyadic_Function.gl_bind gl_eval op i f g f2 tr).gl f3
        (Polyadic_Function.gl_bind gl_eval op i f g f2 tr).trace
      refine ⟨⟨r1 ++ r2, ?_⟩, hnull2⟩
      rw [htr2, htr, List.append_assoc]

theorem gl_return_call_effect (gl_call : GL_Call) (r : GL_Run GL_Frame) :
    (∃ rest : List GL_Event,
      (Polyadic_Function.gl_return_call gl_call r).trace = r.trace ++ rest) ∧
    ((∀ (a : GL_Frame) (b : GL_Compiler), (gl_call a b).1 ≠ .error Fault.null_dereference) →
      r.result ≠ .error Fault.null_dereference →
      (Polyadic_Function.gl_return_call gl_call r).result ≠ .error Fault.null_dereference) := by
  unfold Polyadic_Function.gl_return_call
  cases hr : r.result with
  | error e =>
    simp only []
    refine ⟨⟨[], by simp⟩, fun _ h => ?_⟩
    intro hc
    apply h
    cases hc
    rfl
  | ok f2 =>
    simp only []
    exact ⟨⟨_, rfl⟩, fun h _ => h f2 r.gl⟩

theorem gl_nargs_eq_iff (fn : Polyadic_Function) (arg : Operation) :
    fn.gl_nargs arg.dynamic_cast_List_Expr = fn.nargs_ ↔
      (fn.nargs_ = 1 ∨ ∃ (s : Phrase) (elems : List Operation) (p : Bool),
        arg = Operation.List_Expr s elems p ∧ elems.length = fn.nargs_) := by
  unfold Polyadic_Function.gl_nargs
  by_cases h1 : fn.nargs_ = 1
  · simp [h1]
  · rw [if_neg h1]
    cases arg with
    | List_Expr s elems p =>
      simp only [Operation.dynamic_cast_List_Expr]
      constructor
      · intro h
        exact Or.inr ⟨s, elems, p, rfl, h⟩
      · rintro (h | ⟨s1, e1, p1, heq, hlen⟩)
        · exact absurd h h1
        · cases heq
          exact hlen
    | _ =>
      simp only [Operation.dynamic_cast_List_Expr]
      constructor
      · intro h
        exact absurd h.symm h1
      · rintro (h | ⟨s1, e1, p1, heq, _⟩)
        · exact absurd h h1
        · cases heq

theorem gl_call_expr_reject (fn : Polyadic_Function) (gl_eval : GL_Eval) (gl_call : GL_Call)
    (arg : Operation) (call_phrase : Option Call_Phrase) (f_addr : Nat) (f : GL_Frame)
    (g : GL_Compiler) (h : fn.gl_nargs arg.dynamic_cast_List_Expr ≠ fn.nargs_) :
    fn.gl_call_expr gl_eval gl_call arg call_phrase f_addr f g =
      Polyadic_Function.gl_throw_wrong_number arg f g := by
  unfold Polyadic_Function.gl_call_expr
  simp only [if_pos h]

theorem gl_call_expr_accept (fn : Polyadic_Function) (gl_eval : GL_Eval) (gl_call : GL_Call)
    (arg : Operation) (call_phrase : Option Call_Phrase) (f_addr : Nat) (f : GL_Frame)
    (g : GL_Compiler) (h : fn.gl_nargs arg.dynamic_cast_List_Expr = fn.nargs_) :
    ∃ rest : List GL_Event,
      (fn.gl_call_expr gl_eval gl_call arg call_phrase f_addr f g).trace =
        GL_Event.make (GL_Frame.make fn.nslots_ f.gl (some f_addr) call_phrase) :: rest := by
  unfold Polyadic_Function.gl_call_expr
  simp only [h, ne_eq, not_true_eq_false, if_false]
  by_cases h1 : fn.nargs_ = 1
  · simp only [if_pos h1]
    obtain ⟨⟨r1, h1'⟩, _⟩ := gl_bind_effect gl_eval arg 0 f g
      (GL_Frame.make fn.nslots_ f.gl (some f_addr) call_phrase)
      [GL_Event.make (GL_Frame.make fn.nslots_ f.gl (some f_addr) call_phrase)]
    obtain ⟨⟨r2, h2'⟩, _⟩ := gl_return_call_effect gl_call
      (Polyadic_Function.gl_bind gl_eval arg 0 f g
        (GL_Frame.make fn.nslots_ f.gl (some f_addr) call_phrase)
        [GL_Event.make (GL_Frame.make fn.nslots_ f.gl (some f_addr) call_phrase)])
    exact ⟨r1 ++ r2, by rw [h2', h1']; simp⟩
  · simp only [if_neg h1]
    cases hl : arg.dynamic_cast_List_Expr with
    | none => exact ⟨[], rfl⟩
    | some elems =>
      simp only []
      obtain ⟨⟨r1, h1'⟩, _⟩ := gl_call_loop_effect gl_eval elems 0 f g
        (GL_Frame.make fn.nslots_ f.gl (some f_addr) call_phrase)
        [GL_Event.make (GL_Frame.make fn.nslots_ f.gl (some f_addr) call_phrase)]
      obtain ⟨⟨r2, h2'⟩, _⟩ := gl_return_call_effect gl_call
        (Polyadic_Function.gl_call_loop gl_eval elems 0 f g
          (GL_Frame.make fn.nslots_ f.gl (some f_addr) call_phrase)
          [GL_Event.make (GL_Frame.make fn.nslots_ f.gl (some f_addr) call_phrase)])
      exact ⟨r1 ++ r2, by rw [h2', h1']; simp⟩

/-- C13: the hooks of the geometry compiler fail by default. For every
function, argument operation, call phrase and GL frame, the base
`Function::gl_call_expr` throws "this function does not support the Geometry
Compiler", cited at the function phrase of the call; for every GL frame the
base `Polyadic_Function::gl_call` throws the same message, cited at the frame;
neither returns a value. -/
theorem gl_hooks_fail_by_default :
    (∀ (fn : Function) (arg : Operation) (cp : Call_Phrase) (f : GL_Frame),
      fn.gl_call_expr arg (some cp) f =
        .error (Fault.exception
          { loc := Context.At_GL_Phrase cp.function_ f,
            what := "this function does not support the Geometry Compiler" })) ∧
    (∀ (fn : Polyadic_Function) (f : GL_Frame),
      fn.gl_call f =
        .error (Fault.exception
          { loc := Context.At_GL_Frame f,
            what := "this function does not support the Geometry Compiler" })) ∧
    (∀ (fn : Function) (arg : Operation) (cp : Option Call_Phrase) (f : GL_Frame)
        (v : GL_Value), fn.gl_call_expr arg cp f ≠ .ok v) ∧
    (∀ (fn : Polyadic_Function) (f : GL_Frame) (v : GL_Value), fn.gl_call f ≠ .ok v) := by
  refine ⟨fun _ _ _ _ => rfl, fun _ _ => rfl, ?_, ?_⟩
  · intro fn arg cp f v
    cases cp <;> simp [Function.gl_call_expr]
  · intro fn f v
    simp [Polyadic_Function.gl_call]

/-- C15: a successful compile-time application. When the arity is 1, the
frame has a slot 0 and the `gl_eval` of the argument operation succeeds, or
when the arity is `n` other than 1, the argument is a `List_Expr` of `n`
elements, the frame has `n` slots and the `gl_eval` of every element
succeeds, `gl_call_expr` makes a new frame of `nslots_` slots whose parent is
the caller's frame, evaluates the argument (arity 1: the whole operation, also
when it is a `List_Expr`; otherwise its elements from left to right) in the
caller's frame, stores the value of argument `i` in slot `i` of the new frame
right after evaluating it, and returns the result of `gl_call` on the new
frame. -/
theorem gl_call_expr_binds_in_order (fn : Polyadic_Function) (gl_eval : GL_Eval)
    (gl_call : GL_Call) (call_phrase : Option Call_Phrase) (f_addr : Nat) (f : GL_Frame)
    (g : GL_Compiler) :
    (∀ (arg : Operation) (v : GL_Value) (f1 : GL_Frame) (g1 : GL_Compiler),
      fn.nargs_ = 1 → 0 < fn.nslots_ → gl_eval arg f g = (.ok v, f1, g1) →
      fn.gl_call_expr gl_eval gl_call arg call_phrase f_addr f g =
        { result := (gl_call
            { GL_Frame.make fn.nslots_ f.gl (some f_addr) call_phrase with
              array_ := some v :: List.replicate (fn.nslots_ - 1) none } g1).1,
          frame := f1,
          gl := (gl_call
            { GL_Frame.make fn.nslots_ f.gl (some f_addr) call_phrase with
              array_ := some v :: List.replicate (fn.nslots_ - 1) none } g1).2,
          trace :=
            [GL_Event.make (GL_Frame.make fn.nslots_ f.gl (some f_addr) call_phrase),
             GL_Event.gl_eval arg f, GL_Event.index 0,
             GL_Event.gl_call
               { GL_Frame.make fn.nslots_ f.gl (some f_addr) call_phrase with
                 array_ := some v :: List.replicate (fn.nslots_ - 1) none }] }) ∧
    (∀ (s : Phrase) (elems : List Operation) (p : Bool) (vals : List GL_Value)
        (f1 : GL_Frame) (g1 : GL_Compiler) (calls : List (Operation × GL_Frame)),
      fn.nargs_ ≠ 1 → elems.length = fn.nargs_ → fn.nargs_ ≤ fn.nslots_ →
      gl_eval_in_order gl_eval elems f g = (.ok vals, f1, g1, calls) →
      fn.gl_call_expr gl_eval gl_call (Operation.List_Expr s elems p) call_phrase f_addr f g =
        { result := (gl_call
            { GL_Frame.make fn.nslots_ f.gl (some f_addr) call_phrase with
              array_ := vals.map some ++ List.replicate (fn.nslots_ - fn.nargs_) none } g1).1,
          frame := f1,
          gl := (gl_call
            { GL_Frame.make fn.nslots_ f.gl (some f_addr) call_phrase with
              array_ := vals.map some ++ List.replicate (fn.nslots_ - fn.nargs_) none } g1).2,
          trace :=
            [GL_Event.make (GL_Frame.make fn.nslots_ f.gl (some f_addr) call_phrase)]
              ++ gl_bind_events calls 0
              ++ [GL_Event.gl_call
                { GL_Frame.make fn.nslots_ f.gl (some f_addr) call_phrase with
                  array_ := vals.map some
                    ++ List.replicate (fn.nslots_ - fn.nargs_) none }] }) := by
  constructor
  · intro arg v f1 g1 h1 hs he
    have hn : fn.gl_nargs arg.dynamic_cast_List_Expr = 1 := by
      simp [Polyadic_Function.gl_nargs, h1]
    have hlen : 0 < (GL_Frame.make fn.nslots_ f.gl (some f_addr) call_phrase).array_.length := by
      simp [GL_Frame.make, hs]
    have hset : (List.replicate fn.nslots_ (none : Option GL_Value)).set 0 (some v)
        = some v :: List.replicate (fn.nslots_ - 1) none := by
      obtain ⟨k, hk⟩ : ∃ k, fn.nslots_ = k + 1 := ⟨fn.nslots_ - 1, by omega⟩
      rw [hk]
      simp [List.replicate_succ]
    unfold Polyadic_Function.gl_call_expr
    simp only [hn, h1, ne_eq, not_true_eq_false, if_false, if_true]
    rw [gl_bind_ok gl_eval arg 0 f g _ _ v f1 g1 he hlen]
    simp only [Polyadic_Function.gl_return_call, GL_Frame.make, hset]
    simp
  · intro s elems p vals f1 g1 calls hn hlen hs he
    have hn' : fn.gl_nargs (some elems) = fn.nargs_ := by
      simp [Polyadic_Function.gl_nargs, hn, hlen]
    unfold Polyadic_Function.gl_call_expr
    simp only [Operation.dynamic_cast_List_Expr, hn', ne_eq, not_true_eq_false, if_false,
      if_neg hn]
    obtain ⟨hvl, hloop⟩ := gl_call_loop_ok gl_eval elems 0 f g
      (GL_Frame.make fn.nslots_ f.gl (some f_addr) call_phrase)
      [GL_Event.make (GL_Frame.make fn.nslots_ f.gl (some f_addr) call_phrase)]
      vals f1 g1 calls he (by simp [GL_Frame.make]; omega)
    rw [hloop]
    have hdrop : (List.replicate fn.nslots_ (none : Option GL_Value)).drop (0 + elems.length)
        = List.replicate (fn.nslots_ - fn.nargs_) none := by
      simp [hlen]
    simp only [Polyadic_Function.gl_return_call, GL_Frame.make, hdrop]
    simp

theorem gl_call_expr_binds_in_order_witness :
    ((sample_builtin 2).gl_call_expr sample_gl_eval sample_gl_call
        (Operation.List_Expr 20 [Operation.other 21 false, Operation.other 22 false] false)
        none 77 sample_gl_frame sample_gl_compiler).result
      = .ok { kind := 1, index := 21 } ∧
    ((sample_builtin 2).gl_call_expr sample_gl_eval sample_gl_call
        (Operation.List_Expr 20 [Operation.other 21 false, Operation.other 22 false] false)
        none 77 sample_gl_frame sample_gl_compiler).trace
      = [GL_Event.make (GL_Frame.make 2 40 (some 77) none),
         GL_Event.gl_eval (Operation.other 21 false) sample_gl_frame, GL_Event.index 0,
         GL_Event.gl_eval (Operation.other 22 false) sample_gl_frame, GL_Event.index 1,
         GL_Event.gl_call
           { GL_Frame.make 2 40 (some 77) none with
             array_ := [some { kind := 1, index := 21 }, some { kind := 1, index := 22 }] }] :=
  ⟨by rw [(gl_call_expr_binds_in_order (sample_builtin 2) sample_gl_eval sample_gl_call
        none 77 sample_gl_frame sample_gl_compiler).2 20
        [Operation.other 21 false, Operation.other 22 false] false
        [{ kind := 1, index := 21 }, { kind := 1, index := 22 }] sample_gl_frame
        { emitted := ["eval", "eval"] }
        [(Operation.other 21 false, sample_gl_frame), (Operation.other 22 false, sample_gl_frame)]
        (by decide) rfl (by decide) rfl]; rfl,
   by rw [(gl_call_expr_binds_in_order (sample_builtin 2) sample_gl_eval sample_gl_call
        none 77 sample_gl_frame sample_gl_compiler).2 20
        [Operation.other 21 false, Operation.other 22 false] false
        [{ kind := 1, index := 21 }, { kind := 1, index := 22 }] sample_gl_frame
        { emitted := ["eval", "eval"] }
        [(Operation.other 21 false, sample_gl_frame), (Operation.other 22 false, sample_gl_frame)]
        (by decide) rfl (by decide) rfl]; rfl⟩

/-- C16: the arity check of `Polyadic_Function::gl_call_expr`. The check
passes exactly when the arity is 1 or the argument operation is a `List_Expr`
whose number of elements is the arity. When it passes, the callee frame is
made first. In every other case the function throws "wrong number of
arguments", cited at the argument, having evaluated no argument and made no
frame, and leaves the caller's frame and the compiler as they were. -/
theorem gl_call_expr_arity_check (fn : Polyadic_Function) (gl_eval : GL_Eval)
    (gl_call : GL_Call) (arg : Operation) (call_phrase : Option Call_Phrase) (f_addr : Nat)
    (f : GL_Frame) (g : GL_Compiler) :
    (fn.gl_nargs arg.dynamic_cast_List_Expr = fn.nargs_ ↔
      (fn.nargs_ = 1 ∨ ∃ (s : Phrase) (elems : List Operation) (p : Bool),
        arg = Operation.List_Expr s elems p ∧ elems.length = fn.nargs_)) ∧
    ((fn.nargs_ = 1 ∨ ∃ (s : Phrase) (elems : List Operation) (p : Bool),
        arg = Operation.List_Expr s elems p ∧ elems.length = fn.nargs_) →
      ∃ rest : List GL_Event,
        (fn.gl_call_expr gl_eval gl_call arg call_phrase f_addr f g).trace =
          GL_Event.make (GL_Frame.make fn.nslots_ f.gl (some f_addr) call_phrase) :: rest) ∧
    (¬ (fn.nargs_ = 1 ∨ ∃ (s : Phrase) (elems : List Operation) (p : Bool),
        arg = Operation.List_Expr s elems p ∧ elems.length = fn.nargs_) →
      fn.gl_call_expr gl_eval gl_call arg call_phrase f_addr f g =
        { result := .error (Fault.exception
            { loc := Context.At_GL_Phrase arg.syntax_ f,
              what := "wrong number of arguments" }),
          frame := f, gl := g, trace := [] }) := by
  refine ⟨gl_nargs_eq_iff fn arg, ?_, ?_⟩
  · intro h
    exact gl_call_expr_accept fn gl_eval gl_call arg call_phrase f_addr f g
      ((gl_nargs_eq_iff fn arg).2 h)
  · intro h
    rw [gl_call_expr_reject fn gl_eval gl_call arg call_phrase f_addr f g
      (fun hc => h ((gl_nargs_eq_iff fn arg).1 hc))]
    rfl

theorem gl_call_expr_arity_check_witness :
    (sample_builtin 3).gl_call_expr sample_gl_eval sample_gl_call
        (Operation.List_Expr 20 [Operation.other 21 false, Operation.other 22 false] false)
        none 77 sample_gl_frame sample_gl_compiler =
      { result := .error (Fault.exception
          { loc := Context.At_GL_Phrase 20 sample_gl_frame,
            what := "wrong number of arguments" }),
        frame := sample_gl_frame, gl := sample_gl_compiler, trace := [] } :=
  (gl_call_expr_arity_check (sample_builtin 3) sample_gl_eval sample_gl_call
    (Operation.List_Expr 20 [Operation.other 21 false, Operation.other 22 false] false)
    none 77 sample_gl_frame sample_gl_compiler).2.2
    (by
      rintro (h | ⟨s, elems, p, heq, hlen⟩)
      · exact absurd h (by decide)
      · cases heq
        exact absurd hlen (by decide))

/-- C17: null-safety of `Polyadic_Function::gl_call_expr`. Whenever the arity
check has passed and the computed `nargs` is not 1, so that control reaches
the loop over `list`, `list` is not null: the argument is a `List_Expr`.
Hence the function never ends in a null dereference of its own: when neither
`gl_eval` nor `gl_call` ends in one, its result is not one. -/
theorem gl_call_expr_list_not_null (fn : Polyadic_Function) (arg : Operation) :
    (fn.gl_nargs arg.dynamic_cast_List_Expr = fn.nargs_ →
      fn.gl_nargs arg.dynamic_cast_List_Expr ≠ 1 →
      ∃ (s : Phrase) (elems : List Operation) (p : Bool),
        arg = Operation.List_Expr s elems p ∧
        arg.dynamic_cast_List_Expr = some elems) ∧
    (∀ (gl_eval : GL_Eval) (gl_call : GL_Call) (call_phrase : Option Call_Phrase)
        (f_addr : Nat) (f : GL_Frame) (g : GL_Compiler),
      (∀ (o : Operation) (a : GL_Frame) (b : GL_Compiler),
        (gl_eval o a b).1 ≠ .error Fault.null_dereference) →
      (∀ (a : GL_Frame) (b : GL_Compiler), (gl_call a b).1 ≠ .error Fault.null_dereference) →
      (fn.gl_call_expr gl_eval gl_call arg call_phrase f_addr f g).result
        ≠ .error Fault.null_dereference) := by
  constructor
  · intro _ hne
    cases arg with
    | List_Expr s elems p => exact ⟨s, elems, p, rfl, rfl⟩
    | _ =>
      exfalso
      apply hne
      unfold Polyadic_Function.gl_nargs
      simp [Operation.dynamic_cast_List_Expr]
  · intro gl_eval gl_call call_phrase f_addr f g he hc
    unfold Polyadic_Function.gl_call_expr
    by_cases hn : fn.gl_nargs arg.dynamic_cast_List_Expr = fn.nargs_
    · simp only [hn, ne_eq, not_true_eq_false, if_false]
      by_cases h1 : fn.nargs_ = 1
      · simp only [if_pos h1]
        exact (gl_return_call_effect gl_call _).2 hc
          ((gl_bind_effect gl_eval arg 0 f g _ _).2 he)
      · simp only [if_neg h1]
        cases hl : arg.dynamic_cast_List_Expr with
        | none =>
          exfalso
          rw [hl] at hn
          simp only [Polyadic_Function.gl_nargs, if_neg h1] at hn
          exact h1 hn.symm
        | some elems =>
          simp only []
          exact (gl_return_call_effect gl_call _).2 hc
            ((gl_call_loop_effect gl_eval elems 0 f g _ _).2 he)
    · simp only [ne_eq, hn, not_false_eq_true, if_true,
        Polyadic_Function.gl_throw_wrong_number]
      simp

theorem gl_call_expr_list_not_null_witness :
    (sample_builtin 2).gl_nargs
        (Operation.List_Expr 20 [Operation.other 21 false, Operation.other 22 false]
          false).dynamic_cast_List_Expr = 2 ∧
    ∃ (s : Phrase) (elems : List Operation) (p : Bool),
      Operation.List_Expr 20 [Operation.other 21 false, Operation.other 22 false] false
        = Operation.List_Expr s elems p ∧
      (Operation.List_Expr 20 [Operation.other 21 false, Operation.other 22 false]
        false).dynamic_cast_List_Expr = some elems :=
  ⟨by decide,
   (gl_call_expr_list_not_null (sample_builtin 2)
      (Operation.List_Expr 20 [Operation.other 21 false, Operation.other 22 false] false)).1
      (by decide) (by decide)⟩

theorem loop_call_tail_eval (A : Arithmetic) (n m : Nat)
    (ext : Operation → Frame → Except Fault Value × Frame) (f : Frame)
    (hslot : f.array_ = [Value.function 5]) :
    (loop_call A m).tail_eval (loop_evaluator A n ext) f =
      .ok (loop_frame f.system_ f.parent_frame_ { function_ := 111, arg_ := 112 }
        (A.number m)) := by
  simp [loop_call, Operation.tail_eval, Operation.eval, hslot, loop_evaluator, loop_heap,
    Evaluator.tail_call, Frame.make, Pattern.exec, Frame.subscript_assign, Frame.size_,
    loop_frame, Operation.syntax_]

theorem loop_body_tail_eval_zero (A : Arithmetic) (n : Nat)
    (ext : Operation → Frame → Except Fault Value × Frame) (f : Frame)
    (hex : A.exact_up_to n) (hslot : f.array_ = [A.number 0]) :
    (loop_body A).tail_eval (loop_evaluator A n ext) f =
      .ok { f with result_ := A.number 0, next_op_ := none } := by
  have heq := (hex 0 (Nat.zero_le n)).1
  simp [loop_body, Operation.tail_eval, Operation.eval, hslot, loop_evaluator, heq]

theorem loop_body_tail_eval_succ (A : Arithmetic) (n k : Nat)
    (ext : Operation → Frame → Except Fault Value × Frame) (f : Frame)
    (hex : A.exact_up_to n) (hk : k + 1 ≤ n) (hnl : f.nonlocals_ = some 9)
    (hslot : f.array_ = [A.number (k + 1)]) :
    (loop_body A).tail_eval (loop_evaluator A n ext) f =
      .ok (loop_frame f.system_ f.parent_frame_ { function_ := 106, arg_ := 107 }
        (A.number k)) := by
  have heq := (hex (k + 1) hk).1
  have hsub := (hex (k + 1) hk).2 (Nat.succ_pos k)
  simp only [Nat.add_sub_cancel] at hsub
  simp [loop_body, Operation.tail_eval, Operation.eval, hslot, hnl, loop_evaluator, heq, hsub,
    loop_heap, Evaluator.tail_call, Frame.make, Pattern.exec, Frame.subscript_assign,
    Frame.size_, loop_frame, Operation.syntax_]

theorem loop_tail_eval_body (A : Arithmetic) (n : Nat)
    (ext : Operation → Frame → Except Fault Value × Frame) (f : Frame) :
    (loop_evaluator A n ext).tail_eval 1 f = (loop_body A).tail_eval (loop_evaluator A n ext) f := by
  simp [Evaluator.tail_eval, loop_evaluator, loop_heap]

theorem loop_tail_eval_call (A : Arithmetic) (n : Nat)
    (ext : Operation → Frame → Except Fault Value × Frame) (f : Frame) :
    (loop_evaluator A n ext).tail_eval 0 f = (loop_call A n).tail_eval (loop_evaluator A n ext) f := by
  simp [Evaluator.tail_eval, loop_evaluator, loop_heap]

theorem loop_trampoline (A : Arithmetic) (n : Nat)
    (ext : Operation → Frame → Except Fault Value × Frame) (hex : A.exact_up_to n) :
    ∀ (k : Nat), k ≤ n → ∀ (system : Nat) (parent : Option Nat) (cp : Call_Phrase)
      (tr : List Tail_Call),
      tail_eval_frame (loop_evaluator A n ext).tail_eval (k + 1)
          (loop_frame system parent cp (A.number k)) tr =
        (some (.ok (A.number 0)), tr ++ loop_trace A system parent cp k) := by
  intro k
  induction k with
  | zero =>
    intro _ system parent cp tr
    rw [tail_eval_frame_succ _ _ _ _ 1 rfl, loop_tail_eval_body,
      loop_body_tail_eval_zero A n ext _ hex rfl]
    simp only []
    rw [tail_eval_frame_none _ _ _ _ rfl]
    rfl
  | succ k ih =>
    intro hk system parent cp tr
    rw [tail_eval_frame_succ _ _ _ _ 1 rfl, loop_tail_eval_body,
      loop_body_tail_eval_succ A n k ext _ hex hk rfl rfl]
    simp only []
    rw [ih (by omega)]
    simp [loop_trace, loop_frame]

theorem loop_trace_length (A : Arithmetic) (system : Nat) (parent : Option Nat) :
    ∀ (k : Nat) (cp : Call_Phrase), (loop_trace A system parent cp k).length = k + 1 := by
  intro k
  induction k with
  | zero => intro cp; rfl
  | succ k ih => intro cp; simp [loop_trace, ih]

theorem loop_trace_frames (A : Arithmetic) (system : Nat) (parent : Option Nat) :
    ∀ (k : Nat) (cp : Call_Phrase) (c : Tail_Call), c ∈ loop_trace A system parent cp k →
      c.op = 1 ∧ c.f.size_ = 1 ∧ c.f.parent_frame_ = parent := by
  intro k
  induction k with
  | zero =>
    intro cp c hc
    simp only [loop_trace, List.mem_singleton] at hc
    subst hc
    exact ⟨rfl, rfl, rfl⟩
  | succ k ih =>
    intro cp c hc
    simp only [loop_trace, List.mem_cons] at hc
    rcases hc with rfl | hc
    · exact ⟨rfl, rfl, rfl⟩
    · exact ih _ c hc

theorem loop_body_tail_eval_step (A : Arithmetic) (n : Nat)
    (ext : Operation → Frame → Except Fault Value × Frame) (f : Frame) (v w : Value)
    (heq : A.equal v (A.number 0) = false) (hsub : A.subtract v (A.number 1) = .ok w)
    (hnl : f.nonlocals_ = some 9) (hslot : f.array_ = [v]) :
    (loop_body A).tail_eval (loop_evaluator A n ext) f =
      .ok (loop_frame f.system_ f.parent_frame_ { function_ := 106, arg_ := 107 } w) := by
  simp [loop_body, Operation.tail_eval, Operation.eval, hslot, hnl, loop_evaluator, heq, hsub,
    loop_heap, Evaluator.tail_call, Frame.make, Pattern.exec, Frame.subscript_assign,
    Frame.size_, loop_frame, Operation.syntax_]

theorem loop_returns_zero_of_exact (A : Arithmetic) (n : Nat)
    (ext : Operation → Frame → Except Fault Value × Frame) (hex : A.exact_up_to n)
    (more : Nat) :
    tail_eval_frame (loop_evaluator A n ext).tail_eval (n + 2 + more) loop_start [] =
      (some (.ok (A.number 0)),
       { op := 0, f := { loop_start with next_op_ := none } }
         :: loop_trace A 0 none { function_ := 111, arg_ := 112 } n) := by
  have hrun : tail_eval_frame (loop_evaluator A n ext).tail_eval (n + 2) loop_start [] =
      (some (.ok (A.number 0)),
       { op := 0, f := { loop_start with next_op_ := none } }
         :: loop_trace A 0 none { function_ := 111, arg_ := 112 } n) := by
    rw [tail_eval_frame_succ _ _ _ _ 0 rfl, loop_tail_eval_call,
      loop_call_tail_eval A n n ext _ rfl]
    simp only []
    rw [loop_trampoline A n ext hex n (Nat.le_refl n)]
    rfl
  rw [tail_eval_frame_mono _ (n + 2) more loop_start [] (.ok (A.number 0))
    (by rw [hrun]), hrun]

theorem excess_bits_of_lt (fuel k : Nat) (h : k < 2 ^ 53) : excess_bits fuel k = 0 := by
  cases fuel with
  | zero => rfl
  | succ fuel => simp only [excess_bits, if_pos h]

theorem round53_of_lt (k : Nat) (h : k < 2 ^ 53) : round53 k = k := by
  unfold round53
  simp only [excess_bits_of_lt k k h, Nat.pow_zero, Nat.div_one, Nat.mod_one, Nat.mul_zero,
    Nat.mul_one, Nat.lt_one_iff, if_true]

theorem round53_of_le (k : Nat) (h : k ≤ 2 ^ 53) : round53 k = k := by
  rcases Nat.lt_or_ge k (2 ^ 53) with hlt | hge
  · exact round53_of_lt k hlt
  · have hk : k = 2 ^ 53 := Nat.le_antisymm h hge
    rw [hk]
    decide

theorem lt_double_bound (k : Nat) (h : k ≤ 2 ^ 53 + 4) : k < double_bound :=
  Nat.lt_of_le_of_lt h (by decide)

theorem is_natural_double_of_le (k : Nat) (h : k ≤ 2 ^ 53) : is_natural_double k = true := by
  unfold is_natural_double
  exact decide_eq_true ⟨round53_of_le k h, lt_double_bound k (Nat.le_add_right_of_le h)⟩

theorem double_number_of_le (B : Arithmetic) (k : Nat) (h : k ≤ 2 ^ 53) :
    (double_arithmetic B).number k = Value.num k := by
  have h1 : k < double_bound := lt_double_bound k (Nat.le_add_right_of_le h)
  simp only [double_arithmetic, round53_of_le k h, if_pos h1]

theorem double_stuck (B : Arithmetic) :
    (double_arithmetic B).number (2 ^ 53 + 4) = Value.num (2 ^ 53 + 4) ∧
    (double_arithmetic B).equal (Value.num (2 ^ 53 + 4)) ((double_arithmetic B).number 0)
      = false ∧
    (double_arithmetic B).subtract (Value.num (2 ^ 53 + 4)) ((double_arithmetic B).number 1)
      = .ok (Value.num (2 ^ 53 + 4)) := by
  have hr : round53 (2 ^ 53 + 4) = 2 ^ 53 + 4 := by decide
  have hr3 : round53 (2 ^ 53 + 4 - 1) = 2 ^ 53 + 4 := by decide
  have hb : 2 ^ 53 + 4 < double_bound := lt_double_bound _ (Nat.le_refl _)
  have hd : is_natural_double (2 ^ 53 + 4) = true := by
    unfold is_natural_double
    exact decide_eq_true ⟨hr, hb⟩
  have h0 : (0 : Nat) ≤ 2 ^ 53 := Nat.zero_le _
  have h1 : (1 : Nat) ≤ 2 ^ 53 := Nat.one_le_two_pow
  have hle : 1 ≤ 2 ^ 53 + 4 := Nat.le_add_right_of_le h1
  have hne : ¬ (2 ^ 53 + 4 = 0) := by decide
  rw [double_number_of_le B 0 h0, double_number_of_le B 1 h1]
  refine ⟨?_, ?_, ?_⟩
  · simp only [double_arithmetic, hr, if_pos hb]
  · simp only [double_arithmetic, hd, is_natural_double_of_le 0 h0, and_self, if_true, hne,
      decide_False]
  · simp only [double_arithmetic, hd, is_natural_double_of_le 1 h1, hle, and_self, if_true, hr3]

theorem double_arithmetic_exact (B : Arithmetic) (n : Nat) (hn : n ≤ 2 ^ 53) :
    (double_arithmetic B).exact_up_to n := by
  intro k hk
  have hk53 : k ≤ 2 ^ 53 := Nat.le_trans hk hn
  have h0 : (0 : Nat) ≤ 2 ^ 53 := Nat.zero_le _
  have h1 : (1 : Nat) ≤ 2 ^ 53 := Nat.one_le_two_pow
  rw [double_number_of_le B k hk53, double_number_of_le B 0 h0]
  constructor
  · simp only [double_arithmetic, is_natural_double_of_le k hk53, is_natural_double_of_le 0 h0,
      and_self, if_true]
  · intro hpos
    rw [double_number_of_le B 1 h1, double_number_of_le B (k - 1) (Nat.le_trans (Nat.sub_le k 1) hk53)]
    have hle : 1 ≤ k := hpos
    simp only [double_arithmetic, is_natural_double_of_le k hk53, is_natural_double_of_le 1 h1,
      hle, and_self, if_true, round53_of_le (k - 1) (Nat.le_trans (Nat.sub_le k 1) hk53)]

theorem loop_frame_diverges (A : Arithmetic) (n : Nat)
    (ext : Operation → Frame → Except Fault Value × Frame) (v : Value)
    (heq : A.equal v (A.number 0) = false) (hsub : A.subtract v (A.number 1) = .ok v) :
    ∀ (fuel : Nat) (system : Nat) (parent : Option Nat) (cp : Call_Phrase)
      (tr : List Tail_Call),
      (tail_eval_frame (loop_evaluator A n ext).tail_eval fuel
        (loop_frame system parent cp v) tr).1 = none := by
  intro fuel
  induction fuel with
  | zero =>
    intro system parent cp tr
    rw [tail_eval_frame_zero _ _ _ 1 rfl]
  | succ fuel ih =>
    intro system parent cp tr
    rw [tail_eval_frame_succ _ _ _ _ 1 rfl, loop_tail_eval_body,
      loop_body_tail_eval_step A n ext _ v v heq hsub rfl rfl]
    simp only []
    exact ih _ _ _ _

theorem loop_start_diverges (A : Arithmetic) (n : Nat)
    (ext : Operation → Frame → Except Fault Value × Frame)
    (heq : A.equal (A.number n) (A.number 0) = false)
    (hsub : A.subtract (A.number n) (A.number 1) = .ok (A.number n)) (fuel : Nat) :
    (tail_eval_frame (loop_evaluator A n ext).tail_eval fuel loop_start []).1 = none := by
  cases fuel with
  | zero => rw [tail_eval_frame_zero _ _ _ 0 rfl]
  | succ fuel =>
    rw [tail_eval_frame_succ _ _ _ _ 0 rfl, loop_tail_eval_call,
      loop_call_tail_eval A n n ext _ rfl]
    simp only []
    exact loop_frame_diverges A n ext (A.number n) heq hsub fuel _ _ _ _

/-- C11, as stated for every natural number, fails: with the arithmetic of
doubles, `loop` applied to `2 ^ 53 + 4` never returns, for no bound on the
iterations of the driver: the double nearest to `2 ^ 53 + 4 - 1` is
`2 ^ 53 + 4` again, so every tail call is entered with the same argument. -/
theorem loop_never_returns_beyond_two_pow_53 :
    ¬ ∃ (fuel : Nat) (r : Except Fault Value),
      (tail_eval_frame
        (loop_evaluator (double_arithmetic sample_arithmetic) (2 ^ 53 + 4)
          sample_eval_other).tail_eval fuel loop_start []).1 = some r := by
  rintro ⟨fuel, r, h⟩
  have hs := double_stuck sample_arithmetic
  rw [loop_start_diverges (double_arithmetic sample_arithmetic) (2 ^ 53 + 4) sample_eval_other
    (by rw [hs.1]; exact hs.2.1) (by rw [hs.1]; exact hs.2.2) fuel] at h
  cases h

/-- C11, amended: tail safety for every natural number `n` up to `2 ^ 53` (in
particular for `n = 1000000`). With the arithmetic of doubles, evaluating
`loop(n)` for `loop = n -> if (n == 0) 0 else loop(n-1)` with the driver
`tail_eval_frame` ends after `n + 2` calls of `tail_eval` (and so for every
larger bound on the iterations) with the result 0. The driver holds a single
frame throughout: the first call is the `Call_Expr` `loop(n)` on the program
frame, every later one is the body on the frame of one call of `loop`, and
every frame has one slot and the parent of the program frame, each tail call
having put its frame in the place of the one before. -/
theorem loop_returns_zero_up_to_two_pow_53 (B : Arithmetic) (n : Nat)
    (ext : Operation → Frame → Except Fault Value × Frame) (hn : n ≤ 2 ^ 53) (more : Nat) :
    tail_eval_frame (loop_evaluator (double_arithmetic B) n ext).tail_eval (n + 2 + more)
        loop_start [] =
      (some (.ok (Value.num 0)),
       { op := 0, f := { loop_start with next_op_ := none } }
         :: loop_trace (double_arithmetic B) 0 none { function_ := 111, arg_ := 112 } n) ∧
    (tail_eval_frame (loop_evaluator (double_arithmetic B) n ext).tail_eval (n + 2 + more)
      loop_start []).2.length = n + 2 ∧
    ∀ c : Tail_Call,
      c ∈ (tail_eval_frame (loop_evaluator (double_arithmetic B) n ext).tail_eval
        (n + 2 + more) loop_start []).2 →
      c.f.size_ = 1 ∧ c.f.parent_frame_ = loop_start.parent_frame_ := by
  have hall := loop_returns_zero_of_exact (double_arithmetic B) n ext
    (double_arithmetic_exact B n hn) more
  rw [double_number_of_le B 0 (Nat.zero_le _)] at hall
  refine ⟨hall, ?_, ?_⟩
  · rw [hall]
    simp [loop_trace_length]
  · intro c hc
    rw [hall] at hc
    simp only [List.mem_cons] at hc
    rcases hc with rfl | hc
    · exact ⟨rfl, rfl⟩
    · obtain ⟨_, h2, h3⟩ := loop_trace_frames (double_arithmetic B) 0 none n _ c hc
      exact ⟨h2, h3⟩

theorem loop_returns_zero_up_to_two_pow_53_witness :
    1000000 ≤ 2 ^ 53 ∧
    (tail_eval_frame
      (loop_evaluator (double_arithmetic sample_arithmetic) 1000000 sample_eval_other).tail_eval
      (1000000 + 2 + 0) loop_start []).1 = some (.ok (Value.num 0)) ∧
    (tail_eval_frame
      (loop_evaluator (double_arithmetic sample_arithmetic) 1000000 sample_eval_other).tail_eval
      (1000000 + 2 + 0) loop_start []).2.length = 1000000 + 2 :=
  ⟨by decide,
   congrArg Prod.fst
     (loop_returns_zero_up_to_two_pow_53 sample_arithmetic 1000000 sample_eval_other
       (by decide) 0).1,
   (loop_returns_zero_up_to_two_pow_53 sample_arithmetic 1000000 sample_eval_other
     (by decide) 0).2.1⟩

/-! ## Symbol expressions -/

/-- C21: a `Symbol_Expr` built by either constructor from a non-null argument
has exactly one of `id_` and `string_` non-null. Hence `syntax()` returns a
phrase and `eval` does not end in a null dereference of its own (on a
`Symbol_Expr` in general they dereference null exactly when both pointers are
null). When `id_` is set, `eval` returns the identifier's symbol, for every
frame and every `eval_symbol`, calls nothing and leaves the frame as it is;
built from a string expression, it returns what `eval_symbol` of that
expression returns. -/
theorem symbol_expr_is_null_safe (id : Identifier) (s : String_Expr)
    (eval_symbol : String_Expr → Frame → Except Fault Symbol_Ref × Frame) (f : Frame) :
    ((Symbol_Expr.from_id (some id)).id_ = some id ∧
      (Symbol_Expr.from_id (some id)).string_ = none) ∧
    ((Symbol_Expr.from_string (some s)).id_ = none ∧
      (Symbol_Expr.from_string (some s)).string_ = some s) ∧
    (Symbol_Expr.from_id (some id)).syntax_phrase = .ok id.phrase ∧
    (Symbol_Expr.from_string (some s)).syntax_phrase = .ok s.syntax_ ∧
    (Symbol_Expr.from_id (some id)).eval eval_symbol f =
      { result := .ok id.symbol_, frame := f, trace := [] } ∧
    (Symbol_Expr.from_string (some s)).eval eval_symbol f =
      { result := (eval_symbol s f).1, frame := (eval_symbol s f).2,
        trace := [Event.eval_symbol s f] } ∧
    (∀ e : Symbol_Expr,
      (e.syntax_phrase = .error Fault.null_dereference ↔ (e.id_ = none ∧ e.string_ = none)) ∧
      ((e.eval eval_symbol f).result = .error Fault.null_dereference ∧
          (e.eval eval_symbol f).trace = [] ↔
        (e.id_ = none ∧ e.string_ = none))) := by
  refine ⟨⟨rfl, rfl⟩, ⟨rfl, rfl⟩, rfl, rfl, rfl, rfl, ?_⟩
  intro e
  obtain ⟨i, t⟩ := e
  cases i with
  | some i => simp [Symbol_Expr.syntax_phrase, Symbol_Expr.eval]
  | none =>
    cases t with
    | none => simp [Symbol_Expr.syntax_phrase, Symbol_Expr.eval]
    | some t => simp [Symbol_Expr.syntax_phrase, Symbol_Expr.eval]

theorem symbol_expr_is_null_safe_witness :
    (Symbol_Expr.from_id (some { phrase := 30, symbol_ := "x" })).eval sample_eval_symbol
        sample_frame
      = { result := .ok "x", frame := sample_frame, trace := [] } ∧
    (Symbol_Expr.from_id (some { phrase := 30, symbol_ := "x" })).eval sample_eval_symbol
        loop_start
      = { result := .ok "x", frame := loop_start, trace := [] } ∧
    (Symbol_Expr.from_string (some { syntax_ := 31, array_ := [] })).syntax_phrase = .ok 31 :=
  ⟨(symbol_expr_is_null_safe { phrase := 30, symbol_ := "x" } { syntax_ := 31, array_ := [] }
      sample_eval_symbol sample_frame).2.2.2.2.1,
   (symbol_expr_is_null_safe { phrase := 30, symbol_ := "x" } { syntax_ := 31, array_ := [] }
      sample_eval_symbol loop_start).2.2.2.2.1,
   (symbol_expr_is_null_safe { phrase := 30, symbol_ := "x" } { syntax_ := 31, array_ := [] }
      sample_eval_symbol sample_frame).2.2.2.1⟩

end curv
